import Mathlib

/-!
Verification of the multi-Modbus simulation and acquisition platform.

The definitions below are a shallow embedding of the repository's Go code:
bytes are modelled as Nat (with explicit % 256 / % 65536 where the Go code
casts), register files as total functions out of Nat guarded by the same
length checks the Go slices carry, fallible operations as Option/Except,
and float64 values as rationals.
-/

namespace Modbus

/-- Size of each register array; the Go server allocates make(..., 65536). -/
def regSize : Nat := 65536

/-- Errors produced by the TCP read handlers (errOutOfRange, errInvalidQty,
errInvalidPDULen in the Go source). -/
inductive RegErr where
  | outOfRange
  | invalidQty
  | invalidPDULen
deriving DecidableEq, Repr

/-- Register space of the TCP slave engine (struct Server): four dense
arrays of 65536 entries, modelled as total functions. -/
structure Server where
  HoldingRegisters : Nat → Nat
  InputRegisters : Nat → Nat
  Coils : Nat → Bool
  DiscreteInputs : Nat → Bool

/-- A server whose registers are all zero / false. -/
def zeroServer : Server :=
  { HoldingRegisters := fun _ => 0
    InputRegisters := fun _ => 0
    Coils := fun _ => false
    DiscreteInputs := fun _ => false }

/-- exceptionResponse from the Go source: function 0 is replaced by 0x80,
otherwise the function byte is OR'd with 0x80. -/
def exceptionResponse (function code : Nat) : List Nat :=
  if function = 0 then [0x80, code] else [function ||| 0x80, code]

/-- errToCode from the Go source. -/
def errToCode : RegErr → Nat
  | RegErr.outOfRange => 0x02
  | RegErr.invalidQty => 0x03
  | RegErr.invalidPDULen => 0x03

/-- One iteration of the bit-packing loop body: result[i/8] |= 1 << (i%8). -/
def orBitAt (l : List Nat) (i : Nat) : List Nat :=
  l.set (i / 8) ((l.getD (i / 8) 0) ||| (1 <<< (i % 8)))

/-- The bit-packing loop of readBits, with the remaining iteration count
made explicit: at loop index i with count iterations left, if
source(start+i) then set bit i of the accumulator. -/
def packBitsAux (source : Nat → Bool) (start : Nat) : Nat → Nat → List Nat → List Nat
  | _, 0, acc => acc
  | i, count + 1, acc =>
    packBitsAux source start (i + 1) count
      (if source (start + i) then orBitAt acc i else acc)

/-- Data bytes of a read-bits response: byteCount = (qty+7)/8 zero bytes,
then the loop packing one bit per requested coil / discrete input. -/
def packBits (source : Nat → Bool) (start qty : Nat) : List Nat :=
  packBitsAux source start 0 qty (List.replicate ((qty + 7) / 8) 0)

/-- readBits from the Go source (Server.readBits): parses start and quantity
from the PDU, validates, and packs the addressed bit window. -/
def readBits (source : Nat → Bool) (pdu : List Nat) : Except RegErr (List Nat) :=
  if pdu.length < 5 then Except.error RegErr.invalidPDULen
  else
    let start := pdu.getD 1 0 * 256 + pdu.getD 2 0
    let quantity := pdu.getD 3 0 * 256 + pdu.getD 4 0
    if quantity = 0 ∨ quantity > 2000 then Except.error RegErr.invalidQty
    else if start + quantity > regSize then Except.error RegErr.outOfRange
    else Except.ok (packBits source start quantity)

/-- The register-encoding loop of readRegisters: emits big-endian byte
pairs for count consecutive registers starting at address a; the byte
casts are the % 256 of Go's byte(v >> 8) and byte(v). -/
def encodeRegsAux (source : Nat → Nat) : Nat → Nat → List Nat
  | _, 0 => []
  | a, count + 1 =>
    source a / 256 % 256 :: source a % 256 :: encodeRegsAux source (a + 1) count

/-- Data bytes of a read-registers response. -/
def encodeRegs (source : Nat → Nat) (start qty : Nat) : List Nat :=
  encodeRegsAux source start qty

/-- readRegisters from the Go source (Server.readRegisters). -/
def readRegisters (source : Nat → Nat) (pdu : List Nat) : Except RegErr (List Nat) :=
  if pdu.length < 5 then Except.error RegErr.invalidPDULen
  else
    let start := pdu.getD 1 0 * 256 + pdu.getD 2 0
    let quantity := pdu.getD 3 0 * 256 + pdu.getD 4 0
    if quantity = 0 ∨ quantity > 125 then Except.error RegErr.invalidQty
    else if start + quantity > regSize then Except.error RegErr.outOfRange
    else Except.ok (encodeRegs source start quantity)

/-- handlePDU from the Go source: dispatch by function code. The Go method
has a pointer receiver, so the embedding threads the server state and
returns it alongside the response; the read branches perform no writes.
The byteCount byte is Go's byte(len(data)) cast, hence % 256. -/
def handlePDU (s : Server) (pdu : List Nat) : Server × List Nat :=
  match pdu with
  | [] => (s, exceptionResponse 0 0x01)
  | function :: _ =>
    if function = 0x01 then
      match readBits s.Coils pdu with
      | Except.error e => (s, exceptionResponse function (errToCode e))
      | Except.ok data => (s, function :: data.length % 256 :: data)
    else if function = 0x02 then
      match readBits s.DiscreteInputs pdu with
      | Except.error e => (s, exceptionResponse function (errToCode e))
      | Except.ok data => (s, function :: data.length % 256 :: data)
    else if function = 0x03 then
      match readRegisters s.HoldingRegisters pdu with
      | Except.error e => (s, exceptionResponse function (errToCode e))
      | Except.ok data => (s, function :: data.length % 256 :: data)
    else if function = 0x04 then
      match readRegisters s.InputRegisters pdu with
      | Except.error e => (s, exceptionResponse function (errToCode e))
      | Except.ok data => (s, function :: data.length % 256 :: data)
    else (s, exceptionResponse function 0x01)

/-- SetHoldingRegister from the Go source: bound check, then a single
point update of the holding array. -/
def SetHoldingRegister (s : Server) (address value : Nat) : Option Server :=
  if address ≥ regSize then none
  else some { s with HoldingRegisters := fun x => if x = address then value else s.HoldingRegisters x }

/-- SetInputRegister from the Go source. -/
def SetInputRegister (s : Server) (address value : Nat) : Option Server :=
  if address ≥ regSize then none
  else some { s with InputRegisters := fun x => if x = address then value else s.InputRegisters x }

/-- SetCoil from the Go source. -/
def SetCoil (s : Server) (address : Nat) (value : Bool) : Option Server :=
  if address ≥ regSize then none
  else some { s with Coils := fun x => if x = address then value else s.Coils x }

/-- SetDiscreteInput from the Go source. -/
def SetDiscreteInput (s : Server) (address : Nat) (value : Bool) : Option Server :=
  if address ≥ regSize then none
  else some { s with DiscreteInputs := fun x => if x = address then value else s.DiscreteInputs x }

/-- One iteration of Server.handleConnection: consume a 7-byte MBAP header
and the following PDU bytes from the stream, dispatch, and build the
response header. Returns none on the Go paths that answer nothing (length
0 or 1, short read). The length field write is Go's uint16(len+1) cast. -/
def handleRequestStep (s : Server) (header stream : List Nat) :
    Option (List Nat × List Nat) :=
  match header with
  | [h0, h1, _, _, h4, h5, h6] =>
    let length := h4 * 256 + h5
    if length ≤ 1 then none
    else
      let pduLength := length - 1
      if stream.length < pduLength then none
      else
        let pdu := stream.take pduLength
        let response := (handlePDU s pdu).2
        if response = [] then none
        else
          let lenField := (response.length + 1) % 65536
          some ([h0, h1, 0, 0, lenField / 256, lenField % 256, h6], response)
  | _ => none

end Modbus

/-- crc16Modbus inner-loop body: one shift of the reflected CRC with
polynomial 0xA001 applied on lsb=1. -/
def crc16Bit (crc : Nat) : Nat :=
  if crc % 2 = 1 then (crc / 2) ^^^ 0xA001 else crc / 2

/-- crc16Modbus per-byte step: XOR the byte in, then eight shift rounds. -/
def crc16Byte (crc b : Nat) : Nat :=
  crc16Bit^[8] (crc ^^^ b)

/-- crc16Modbus from the Go source (identical copies in the two RTU
simulators): seed 0xFFFF, fold every data byte. -/
def crc16Modbus (data : List Nat) : Nat :=
  data.foldl crc16Byte 0xFFFF

/-- Character-level whitespace trim, the effect of Go's strings.TrimSpace
on the order string's characters. -/
def trimChars (l : List Char) : List Char :=
  ((l.dropWhile Char.isWhitespace).reverse.dropWhile Char.isWhitespace).reverse

/-- Normalization strings.ToUpper(strings.TrimSpace(order)) applied by
reorder32, expressed on the character list. -/
def normOrder (order : String) : List Char :=
  (trimChars order.data).map Char.toUpper

/-- reorder32 from the collector source: normalize the order string, then
permute the first four bytes; short inputs are returned as a copy. -/
def reorder32 (input : List Nat) (order : String) : List Nat :=
  match input with
  | a :: b :: c :: d :: _ =>
    let o := normOrder order
    if o = [] ∨ o = ['A', 'B', 'C', 'D'] then [a, b, c, d]
    else if o = ['D', 'C', 'B', 'A'] then [d, c, b, a]
    else if o = ['B', 'A', 'D', 'C'] then [b, a, d, c]
    else if o = ['C', 'D', 'A', 'B'] then [c, d, a, b]
    else [a, b, c, d]
  | _ => input

/-- C8: the collector's 32-bit byte reordering is an involution for DCBA
and BADC, applying CDAB twice is the identity, and ABCD is the identity,
for every 4-byte input. -/
theorem reorder32_involutions (b0 b1 b2 b3 : Nat) :
    reorder32 (reorder32 [b0, b1, b2, b3] "DCBA") "DCBA" = [b0, b1, b2, b3]
    ∧ reorder32 (reorder32 [b0, b1, b2, b3] "BADC") "BADC" = [b0, b1, b2, b3]
    ∧ reorder32 (reorder32 [b0, b1, b2, b3] "CDAB") "CDAB" = [b0, b1, b2, b3]
    ∧ reorder32 [b0, b1, b2, b3] "ABCD" = [b0, b1, b2, b3] :=
  ⟨rfl, rfl, rfl, rfl⟩

set_option maxRecDepth 40000 in
/-- C9: CRC-16-Modbus over the bytes 01 03 00 00 00 0A equals 0xCDC5. -/
theorem crc16Modbus_canonical_vector :
    crc16Modbus [0x01, 0x03, 0x00, 0x00, 0x00, 0x0A] = 0xCDC5 := by
  decide

/-- C1 counterexample: the write code 0x05 (write single coil), one of the
eight codes the claim says is handled, is answered by the TCP dispatch with
the illegal-function exception (0x85, 0x01). -/
theorem tcp_write_code_gets_illegal_function :
    (Modbus.handlePDU Modbus.zeroServer [0x05, 0x00, 0x00, 0xFF, 0x00]).2 = [0x85, 0x01] := rfl

/-- C1 amended: the TCP dispatch handles only the read codes 0x01-0x04,
each producing a read response fn, byteCount, data or a read-error
exception with code 0x02/0x03; every other function code, the write codes
0x05/0x06/0x0F/0x10 included, produces the exception (fn | 0x80, 0x01). -/
theorem handlePDU_dispatch_reads_only (s : Modbus.Server) (fn : Nat) (rest : List Nat) :
    ((fn = 0x01 ∨ fn = 0x02 ∨ fn = 0x03 ∨ fn = 0x04) →
      (∃ data : List Nat, (Modbus.handlePDU s (fn :: rest)).2 = fn :: data.length % 256 :: data)
      ∨ (∃ c, (c = 0x02 ∨ c = 0x03) ∧ (Modbus.handlePDU s (fn :: rest)).2 = [fn ||| 0x80, c]))
    ∧ (¬(fn = 0x01 ∨ fn = 0x02 ∨ fn = 0x03 ∨ fn = 0x04) →
      (Modbus.handlePDU s (fn :: rest)).2 = Modbus.exceptionResponse fn 0x01) := by
  constructor
  · rintro (h | h | h | h) <;> subst h
    · cases hr : Modbus.readBits s.Coils (0x01 :: rest) with
      | error e =>
        right
        refine ⟨Modbus.errToCode e, ?_, ?_⟩
        · cases e <;> simp [Modbus.errToCode]
        · simp [Modbus.handlePDU, hr, Modbus.exceptionResponse]
      | ok data => exact Or.inl ⟨data, by simp [Modbus.handlePDU, hr]⟩
    · cases hr : Modbus.readBits s.DiscreteInputs (0x02 :: rest) with
      | error e =>
        right
        refine ⟨Modbus.errToCode e, ?_, ?_⟩
        · cases e <;> simp [Modbus.errToCode]
        · simp [Modbus.handlePDU, hr, Modbus.exceptionResponse]
      | ok data => exact Or.inl ⟨data, by simp [Modbus.handlePDU, hr]⟩
    · cases hr : Modbus.readRegisters s.HoldingRegisters (0x03 :: rest) with
      | error e =>
        right
        refine ⟨Modbus.errToCode e, ?_, ?_⟩
        · cases e <;> simp [Modbus.errToCode]
        · simp [Modbus.handlePDU, hr, Modbus.exceptionResponse]
      | ok data => exact Or.inl ⟨data, by simp [Modbus.handlePDU, hr]⟩
    · cases hr : Modbus.readRegisters s.InputRegisters (0x04 :: rest) with
      | error e =>
        right
        refine ⟨Modbus.errToCode e, ?_, ?_⟩
        · cases e <;> simp [Modbus.errToCode]
        · simp [Modbus.handlePDU, hr, Modbus.exceptionResponse]
      | ok data => exact Or.inl ⟨data, by simp [Modbus.handlePDU, hr]⟩
  · intro h
    push_neg at h
    obtain ⟨h1, h2, h3, h4⟩ := h
    simp [Modbus.handlePDU, h1, h2, h3, h4]

/-- Witness for the amended C1 theorem at the concrete write-single-coil
request 05 00 00 FF 00. -/
theorem handlePDU_dispatch_reads_only_witness :
    ¬((0x05 : Nat) = 0x01 ∨ (0x05 : Nat) = 0x02 ∨ (0x05 : Nat) = 0x03 ∨ (0x05 : Nat) = 0x04)
    ∧ (Modbus.handlePDU Modbus.zeroServer (0x05 :: [0x00, 0x00, 0xFF, 0x00])).2
        = Modbus.exceptionResponse 0x05 0x01 :=
  ⟨by decide,
   (handlePDU_dispatch_reads_only Modbus.zeroServer 0x05 [0x00, 0x00, 0xFF, 0x00]).2 (by decide)⟩

namespace Modbus


lemma orBitAt_length (acc : List Nat) (i : Nat) : (orBitAt acc i).length = acc.length :=
  List.length_set acc _ _

lemma getD_orBitAt (acc : List Nat) (i j : Nat) (hlen : i / 8 < acc.length) :
    (orBitAt acc i).getD (j / 8) 0 =
      if j / 8 = i / 8 then (acc.getD (i / 8) 0) ||| (1 <<< (i % 8)) else acc.getD (j / 8) 0 := by
  unfold orBitAt
  rw [List.getD_eq_getElem?_getD, List.getElem?_set]
  by_cases h : j / 8 = i / 8
  · rw [if_pos h.symm, if_pos hlen, if_pos h]
    rfl
  · rw [if_neg (fun hh => h hh.symm), if_neg h, List.getD_eq_getElem?_getD]

lemma testBit_orBitAt_ne (acc : List Nat) (i j : Nat) (h : j ≠ i) (hlen : i / 8 < acc.length) :
    ((orBitAt acc i).getD (j / 8) 0).testBit (j % 8) = (acc.getD (j / 8) 0).testBit (j % 8) := by
  rw [getD_orBitAt acc i j hlen]
  by_cases heq : j / 8 = i / 8
  · rw [if_pos heq, heq, Nat.testBit_or, Nat.shiftLeft_eq, one_mul, Nat.testBit_two_pow]
    have hne : ¬ i % 8 = j % 8 := by omega
    simp [hne]
  · rw [if_neg heq]

lemma testBit_orBitAt_self (acc : List Nat) (i : Nat) (hlen : i / 8 < acc.length) :
    ((orBitAt acc i).getD (i / 8) 0).testBit (i % 8) = true := by
  rw [getD_orBitAt acc i i hlen, if_pos rfl, Nat.testBit_or, Nat.shiftLeft_eq, one_mul,
    Nat.testBit_two_pow]
  simp

lemma packBitsAux_testBit (source : Nat → Bool) (start : Nat) :
    ∀ (count i : Nat) (acc : List Nat), i + count ≤ 8 * acc.length →
      (∀ j, i ≤ j → j < i + count → ((acc.getD (j / 8) 0).testBit (j % 8)) = false) →
      (packBitsAux source start i count acc).length = acc.length ∧
      ∀ j, j < i + count →
        ((packBitsAux source start i count acc).getD (j / 8) 0).testBit (j % 8)
          = if j < i then (acc.getD (j / 8) 0).testBit (j % 8) else source (start + j) := by
  intro count
  induction count with
  | zero =>
    intro i acc hbound hinv
    refine ⟨rfl, fun j hj => ?_⟩
    rw [packBitsAux, if_pos (by omega)]
  | succ count ih =>
    intro i acc hbound hinv
    rw [packBitsAux]
    have hdiv : i / 8 < acc.length := by omega
    have hlen2 : (if source (start + i) then orBitAt acc i else acc).length = acc.length := by
      split
      · rw [orBitAt_length]
      · rfl
    have hinv2 : ∀ j, i + 1 ≤ j → j < i + 1 + count →
        (((if source (start + i) then orBitAt acc i else acc).getD (j / 8) 0).testBit (j % 8))
          = false := by
      intro j hj hjc
      split
      · rw [testBit_orBitAt_ne acc i j (by omega) hdiv]
        exact hinv j (by omega) (by omega)
      · exact hinv j (by omega) (by omega)
    obtain ⟨hl, hmain⟩ := ih (i + 1) _ (by omega) hinv2
    refine ⟨by rw [hl, hlen2], ?_⟩
    intro j hj
    rw [hmain j (by omega)]
    by_cases hji : j < i
    · rw [if_pos (by omega), if_pos hji]
      split
      · exact testBit_orBitAt_ne acc i j (by omega) hdiv
      · rfl
    · by_cases hjeq : j = i
      · subst hjeq
        rw [if_pos (by omega), if_neg hji]
        cases hsrc : source (start + j) with
        | true => rw [if_pos rfl]; exact testBit_orBitAt_self acc j hdiv
        | false => rw [if_neg (by simp)]; exact hinv j (Nat.le_refl j) (by omega)
      · rw [if_neg (by omega), if_neg hji]

lemma packBits_spec (source : Nat → Bool) (start qty : Nat) :
    (packBits source start qty).length = (qty + 7) / 8 ∧
    ∀ j, j < qty →
      ((packBits source start qty).getD (j / 8) 0).testBit (j % 8) = source (start + j) := by
  unfold packBits
  have hrep : ∀ j, (0:Nat) ≤ j → j < 0 + qty →
      (((List.replicate ((qty + 7) / 8) (0:Nat)).getD (j / 8) 0).testBit (j % 8)) = false := by
    intro j _ _
    rw [List.getD_eq_getElem?_getD, List.getElem?_replicate]
    split <;> simp
  obtain ⟨hl, hm⟩ := packBitsAux_testBit source start qty 0 _
    (by rw [List.length_replicate]; omega) hrep
  refine ⟨by rw [hl, List.length_replicate], ?_⟩
  intro j hj
  rw [hm j (by omega), if_neg (by omega)]

lemma encodeRegsAux_spec (source : Nat → Nat) :
    ∀ (count a : Nat),
      (encodeRegsAux source a count).length = 2 * count ∧
      ∀ j, j < count →
        (encodeRegsAux source a count).getD (2 * j) 0 = source (a + j) / 256 % 256 ∧
        (encodeRegsAux source a count).getD (2 * j + 1) 0 = source (a + j) % 256 := by
  intro count
  induction count with
  | zero => exact fun a => ⟨rfl, fun j hj => absurd hj (by omega)⟩
  | succ count ih =>
    intro a
    obtain ⟨hl, hm⟩ := ih (a + 1)
    constructor
    · simp only [encodeRegsAux, List.length_cons, hl]
      omega
    · intro j hj
      cases j with
      | zero => exact ⟨by simp [encodeRegsAux], by simp [encodeRegsAux]⟩
      | succ j =>
        have h2 : 2 * (j + 1) = 2 * j + 1 + 1 := by ring
        obtain ⟨hm1, hm2⟩ := hm j (by omega)
        have harg : a + 1 + j = a + (j + 1) := by omega
        rw [encodeRegsAux, h2, List.getD_cons_succ, List.getD_cons_succ, List.getD_cons_succ,
          List.getD_cons_succ, hm1, hm2, harg]
        exact ⟨rfl, rfl⟩

lemma encodeRegs_spec (source : Nat → Nat) (start qty : Nat) :
    (encodeRegs source start qty).length = 2 * qty ∧
    ∀ j, j < qty →
      (encodeRegs source start qty).getD (2 * j) 0 = source (start + j) / 256 % 256 ∧
      (encodeRegs source start qty).getD (2 * j + 1) 0 = source (start + j) % 256 := by
  unfold encodeRegs
  exact encodeRegsAux_spec source qty start

lemma readBits_cons (source : Nat → Bool) (fn s1 s0 q1 q0 : Nat) (extra : List Nat) :
    readBits source (fn :: s1 :: s0 :: q1 :: q0 :: extra) =
      if q1 * 256 + q0 = 0 ∨ q1 * 256 + q0 > 2000 then Except.error RegErr.invalidQty
      else if s1 * 256 + s0 + (q1 * 256 + q0) > regSize then Except.error RegErr.outOfRange
      else Except.ok (packBits source (s1 * 256 + s0) (q1 * 256 + q0)) := by
  unfold readBits
  rw [if_neg (by simp)]
  simp only [List.getD_cons_succ, List.getD_cons_zero]

lemma readRegisters_cons (source : Nat → Nat) (fn s1 s0 q1 q0 : Nat) (extra : List Nat) :
    readRegisters source (fn :: s1 :: s0 :: q1 :: q0 :: extra) =
      if q1 * 256 + q0 = 0 ∨ q1 * 256 + q0 > 125 then Except.error RegErr.invalidQty
      else if s1 * 256 + s0 + (q1 * 256 + q0) > regSize then Except.error RegErr.outOfRange
      else Except.ok (encodeRegs source (s1 * 256 + s0) (q1 * 256 + q0)) := by
  unfold readRegisters
  rw [if_neg (by simp)]
  simp only [List.getD_cons_succ, List.getD_cons_zero]

lemma readBits_short (source : Nat → Bool) (pdu : List Nat) (h : pdu.length < 5) :
    readBits source pdu = Except.error RegErr.invalidPDULen := by
  unfold readBits
  rw [if_pos h]

lemma readRegisters_short (source : Nat → Nat) (pdu : List Nat) (h : pdu.length < 5) :
    readRegisters source pdu = Except.error RegErr.invalidPDULen := by
  unfold readRegisters
  rw [if_pos h]

lemma handlePDU_one (s : Server) (rest : List Nat) :
    handlePDU s (0x01 :: rest) =
      (match readBits s.Coils (0x01 :: rest) with
       | Except.error e => (s, exceptionResponse 0x01 (errToCode e))
       | Except.ok data => (s, 0x01 :: data.length % 256 :: data)) := rfl

lemma handlePDU_two (s : Server) (rest : List Nat) :
    handlePDU s (0x02 :: rest) =
      (match readBits s.DiscreteInputs (0x02 :: rest) with
       | Except.error e => (s, exceptionResponse 0x02 (errToCode e))
       | Except.ok data => (s, 0x02 :: data.length % 256 :: data)) := rfl

lemma handlePDU_three (s : Server) (rest : List Nat) :
    handlePDU s (0x03 :: rest) =
      (match readRegisters s.HoldingRegisters (0x03 :: rest) with
       | Except.error e => (s, exceptionResponse 0x03 (errToCode e))
       | Except.ok data => (s, 0x03 :: data.length % 256 :: data)) := rfl

lemma handlePDU_four (s : Server) (rest : List Nat) :
    handlePDU s (0x04 :: rest) =
      (match readRegisters s.InputRegisters (0x04 :: rest) with
       | Except.error e => (s, exceptionResponse 0x04 (errToCode e))
       | Except.ok data => (s, 0x04 :: data.length % 256 :: data)) := rfl

/-- Behaviour the TCP engine must show on a well-formed read-bits PDU with
function code fn reading from the bit array src: quantity out of 1..2000
gives exception 0x03, start+qty beyond 65536 gives exception 0x02, and
otherwise the response carries fn, the byte count (qty+7)/8, and the data
bytes whose bit i is bit (start+i) of src. -/
def bitsReadOk (s : Server) (src : Nat → Bool) (fn s1 s0 q1 q0 : Nat) (extra : List Nat) : Prop :=
  ((q1 * 256 + q0 = 0 ∨ q1 * 256 + q0 > 2000) →
      (handlePDU s (fn :: s1 :: s0 :: q1 :: q0 :: extra)).2 = exceptionResponse fn 0x03)
  ∧ (1 ≤ q1 * 256 + q0 → q1 * 256 + q0 ≤ 2000 → s1 * 256 + s0 + (q1 * 256 + q0) > 65536 →
      (handlePDU s (fn :: s1 :: s0 :: q1 :: q0 :: extra)).2 = exceptionResponse fn 0x02)
  ∧ (1 ≤ q1 * 256 + q0 → q1 * 256 + q0 ≤ 2000 → s1 * 256 + s0 + (q1 * 256 + q0) ≤ 65536 →
      (handlePDU s (fn :: s1 :: s0 :: q1 :: q0 :: extra)).2 =
        fn :: (q1 * 256 + q0 + 7) / 8 :: packBits src (s1 * 256 + s0) (q1 * 256 + q0)
      ∧ (packBits src (s1 * 256 + s0) (q1 * 256 + q0)).length = (q1 * 256 + q0 + 7) / 8
      ∧ ∀ i, i < q1 * 256 + q0 →
          ((packBits src (s1 * 256 + s0) (q1 * 256 + q0)).getD (i / 8) 0).testBit (i % 8)
            = src (s1 * 256 + s0 + i))

/-- Behaviour the TCP engine must show on a well-formed read-registers PDU:
quantity out of 1..125 gives exception 0x03, start+qty beyond 65536 gives
exception 0x02, otherwise the response carries fn, byte count 2*qty, and
big-endian data bytes for the register window starting at start. -/
def regsReadOk (s : Server) (src : Nat → Nat) (fn s1 s0 q1 q0 : Nat) (extra : List Nat) : Prop :=
  ((q1 * 256 + q0 = 0 ∨ q1 * 256 + q0 > 125) →
      (handlePDU s (fn :: s1 :: s0 :: q1 :: q0 :: extra)).2 = exceptionResponse fn 0x03)
  ∧ (1 ≤ q1 * 256 + q0 → q1 * 256 + q0 ≤ 125 → s1 * 256 + s0 + (q1 * 256 + q0) > 65536 →
      (handlePDU s (fn :: s1 :: s0 :: q1 :: q0 :: extra)).2 = exceptionResponse fn 0x02)
  ∧ (1 ≤ q1 * 256 + q0 → q1 * 256 + q0 ≤ 125 → s1 * 256 + s0 + (q1 * 256 + q0) ≤ 65536 →
      (handlePDU s (fn :: s1 :: s0 :: q1 :: q0 :: extra)).2 =
        fn :: 2 * (q1 * 256 + q0) :: encodeRegs src (s1 * 256 + s0) (q1 * 256 + q0)
      ∧ (encodeRegs src (s1 * 256 + s0) (q1 * 256 + q0)).length = 2 * (q1 * 256 + q0)
      ∧ ∀ i, i < q1 * 256 + q0 →
          (encodeRegs src (s1 * 256 + s0) (q1 * 256 + q0)).getD (2 * i) 0
              = src (s1 * 256 + s0 + i) / 256 % 256
          ∧ (encodeRegs src (s1 * 256 + s0) (q1 * 256 + q0)).getD (2 * i + 1) 0
              = src (s1 * 256 + s0 + i) % 256)

lemma bitsReadOk_holds (s : Server) (src : Nat → Bool) (fn s1 s0 q1 q0 : Nat) (extra : List Nat)
    (hdisp : ∀ rest : List Nat, handlePDU s (fn :: rest) =
      (match readBits src (fn :: rest) with
       | Except.error e => (s, exceptionResponse fn (errToCode e))
       | Except.ok data => (s, fn :: data.length % 256 :: data))) :
    bitsReadOk s src fn s1 s0 q1 q0 extra := by
  refine ⟨?_, ?_, ?_⟩
  · intro hq
    rw [hdisp, readBits_cons, if_pos hq]
    rfl
  · intro hq1 hq2 hr
    have hnq : ¬(q1 * 256 + q0 = 0 ∨ q1 * 256 + q0 > 2000) := by omega
    have hpos : s1 * 256 + s0 + (q1 * 256 + q0) > regSize := by
      simp only [regSize]; omega
    rw [hdisp, readBits_cons, if_neg hnq, if_pos hpos]
    rfl
  · intro hq1 hq2 hr
    have hnq : ¬(q1 * 256 + q0 = 0 ∨ q1 * 256 + q0 > 2000) := by omega
    have hnr : ¬(s1 * 256 + s0 + (q1 * 256 + q0) > regSize) := by
      simp only [regSize]; omega
    obtain ⟨hlenp, hwin⟩ := packBits_spec src (s1 * 256 + s0) (q1 * 256 + q0)
    have hresp : (handlePDU s (fn :: s1 :: s0 :: q1 :: q0 :: extra)).2 =
        fn :: (packBits src (s1 * 256 + s0) (q1 * 256 + q0)).length % 256
          :: packBits src (s1 * 256 + s0) (q1 * 256 + q0) := by
      rw [hdisp, readBits_cons, if_neg hnq, if_neg hnr]
    rw [hresp, hlenp, Nat.mod_eq_of_lt (by omega)]
    exact ⟨rfl, rfl, hwin⟩

lemma regsReadOk_holds (s : Server) (src : Nat → Nat) (fn s1 s0 q1 q0 : Nat) (extra : List Nat)
    (hdisp : ∀ rest : List Nat, handlePDU s (fn :: rest) =
      (match readRegisters src (fn :: rest) with
       | Except.error e => (s, exceptionResponse fn (errToCode e))
       | Except.ok data => (s, fn :: data.length % 256 :: data))) :
    regsReadOk s src fn s1 s0 q1 q0 extra := by
  refine ⟨?_, ?_, ?_⟩
  · intro hq
    rw [hdisp, readRegisters_cons, if_pos hq]
    rfl
  · intro hq1 hq2 hr
    have hnq : ¬(q1 * 256 + q0 = 0 ∨ q1 * 256 + q0 > 125) := by omega
    have hpos : s1 * 256 + s0 + (q1 * 256 + q0) > regSize := by
      simp only [regSize]; omega
    rw [hdisp, readRegisters_cons, if_neg hnq, if_pos hpos]
    rfl
  · intro hq1 hq2 hr
    have hnq : ¬(q1 * 256 + q0 = 0 ∨ q1 * 256 + q0 > 125) := by omega
    have hnr : ¬(s1 * 256 + s0 + (q1 * 256 + q0) > regSize) := by
      simp only [regSize]; omega
    obtain ⟨hlenp, hwin⟩ := encodeRegs_spec src (s1 * 256 + s0) (q1 * 256 + q0)
    have hresp : (handlePDU s (fn :: s1 :: s0 :: q1 :: q0 :: extra)).2 =
        fn :: (encodeRegs src (s1 * 256 + s0) (q1 * 256 + q0)).length % 256
          :: encodeRegs src (s1 * 256 + s0) (q1 * 256 + q0) := by
      rw [hdisp, readRegisters_cons, if_neg hnq, if_neg hnr]
    rw [hresp, hlenp, Nat.mod_eq_of_lt (by omega)]
    exact ⟨rfl, rfl, hwin⟩

/-- C2: on the TCP slave engine, a read PDU shorter than 5 bytes or with
quantity outside 1..2000 (bits) / 1..125 (registers) is answered with
exception IllegalDataValue (0x03); start+qty beyond 65536 with exception
IllegalDataAddress (0x02); otherwise the response is fn, byteCount and the
data bytes for the window starting at start. -/
theorem tcp_read_request_responses :
    (∀ (s : Server) (fn : Nat) (rest : List Nat),
      (fn = 0x01 ∨ fn = 0x02 ∨ fn = 0x03 ∨ fn = 0x04) → rest.length < 4 →
        (handlePDU s (fn :: rest)).2 = exceptionResponse fn 0x03)
    ∧ (∀ (s : Server) (s1 s0 q1 q0 : Nat) (extra : List Nat),
        bitsReadOk s s.Coils 0x01 s1 s0 q1 q0 extra
        ∧ bitsReadOk s s.DiscreteInputs 0x02 s1 s0 q1 q0 extra
        ∧ regsReadOk s s.HoldingRegisters 0x03 s1 s0 q1 q0 extra
        ∧ regsReadOk s s.InputRegisters 0x04 s1 s0 q1 q0 extra) := by
  constructor
  · intro s fn rest hfn hlen
    have hshort : (fn :: rest).length < 5 := by simp; omega
    rcases hfn with h | h | h | h <;> subst h
    · rw [handlePDU_one, readBits_short _ _ hshort]; rfl
    · rw [handlePDU_two, readBits_short _ _ hshort]; rfl
    · rw [handlePDU_three, readRegisters_short _ _ hshort]; rfl
    · rw [handlePDU_four, readRegisters_short _ _ hshort]; rfl
  · intro s s1 s0 q1 q0 extra
    exact ⟨bitsReadOk_holds s s.Coils 0x01 s1 s0 q1 q0 extra (handlePDU_one s),
      bitsReadOk_holds s s.DiscreteInputs 0x02 s1 s0 q1 q0 extra (handlePDU_two s),
      regsReadOk_holds s s.HoldingRegisters 0x03 s1 s0 q1 q0 extra (handlePDU_three s),
      regsReadOk_holds s s.InputRegisters 0x04 s1 s0 q1 q0 extra (handlePDU_four s)⟩

/-- Witness for the C2 theorem: a read-coils request with quantity 0 on the
all-zero server is answered with exception code 0x03. -/
theorem tcp_read_request_responses_witness :
    ((0:Nat) * 256 + 0 = 0 ∨ (0:Nat) * 256 + 0 > 2000)
    ∧ (Modbus.handlePDU Modbus.zeroServer [0x01, 0, 0, 0, 0]).2
        = Modbus.exceptionResponse 0x01 0x03 :=
  ⟨Or.inl rfl,
   (tcp_read_request_responses.2 Modbus.zeroServer 0 0 0 0 []).1.1 (Or.inl rfl)⟩

end Modbus
namespace Modbus

lemma readBits_ok_length (source : Nat → Bool) (pdu data : List Nat)
    (h : readBits source pdu = Except.ok data) : data.length ≤ 250 := by
  simp only [readBits] at h
  split_ifs at h with h1 h2 h3
  injection h with h
  subst h
  obtain ⟨hl, _⟩ := packBits_spec source (pdu.getD 1 0 * 256 + pdu.getD 2 0)
    (pdu.getD 3 0 * 256 + pdu.getD 4 0)
  rw [hl]
  omega

lemma readRegisters_ok_length (source : Nat → Nat) (pdu data : List Nat)
    (h : readRegisters source pdu = Except.ok data) : data.length ≤ 250 := by
  simp only [readRegisters] at h
  split_ifs at h with h1 h2 h3
  injection h with h
  subst h
  obtain ⟨hl, _⟩ := encodeRegs_spec source (pdu.getD 1 0 * 256 + pdu.getD 2 0)
    (pdu.getD 3 0 * 256 + pdu.getD 4 0)
  rw [hl]
  omega

lemma handlePDU_resp_length (s : Server) (pdu : List Nat) :
    (handlePDU s pdu).2.length ≤ 252 := by
  match pdu with
  | [] => simp [handlePDU, exceptionResponse]
  | function :: rest =>
    by_cases h1 : function = 0x01
    · subst h1
      rw [handlePDU_one]
      cases hr : readBits s.Coils (0x01 :: rest) with
      | error e => simp [exceptionResponse]
      | ok data =>
        have := readBits_ok_length s.Coils _ _ hr
        simp only [List.length_cons]
        omega
    · by_cases h2 : function = 0x02
      · subst h2
        rw [handlePDU_two]
        cases hr : readBits s.DiscreteInputs (0x02 :: rest) with
        | error e => simp [exceptionResponse]
        | ok data =>
          have := readBits_ok_length s.DiscreteInputs _ _ hr
          simp only [List.length_cons]
          omega
      · by_cases h3 : function = 0x03
        · subst h3
          rw [handlePDU_three]
          cases hr : readRegisters s.HoldingRegisters (0x03 :: rest) with
          | error e => simp [exceptionResponse]
          | ok data =>
            have := readRegisters_ok_length s.HoldingRegisters _ _ hr
            simp only [List.length_cons]
            omega
        · by_cases h4 : function = 0x04
          · subst h4
            rw [handlePDU_four]
            cases hr : readRegisters s.InputRegisters (0x04 :: rest) with
            | error e => simp [exceptionResponse]
            | ok data =>
              have := readRegisters_ok_length s.InputRegisters _ _ hr
              simp only [List.length_cons]
              omega
          · have : handlePDU s (function :: rest) = (s, exceptionResponse function 0x01) := by
              simp [handlePDU, h1, h2, h3, h4]
            rw [this]
            simp only [exceptionResponse]
            split <;> simp

/-- C3: whenever the TCP connection handler answers an MBAP-framed request,
the response header echoes the request's transaction id bytes, carries
protocolID 0, echoes the unit id, and its length field equals the response
PDU length plus one. -/
theorem mbap_response_header (s : Server) (h0 h1 h2 h3 h4 h5 h6 : Nat)
    (stream rh resp : List Nat)
    (h : handleRequestStep s [h0, h1, h2, h3, h4, h5, h6] stream = some (rh, resp)) :
    rh.getD 0 0 = h0 ∧ rh.getD 1 0 = h1 ∧ rh.getD 2 0 = 0 ∧ rh.getD 3 0 = 0
    ∧ rh.getD 4 0 * 256 + rh.getD 5 0 = resp.length + 1 ∧ rh.getD 6 0 = h6 := by
  simp only [handleRequestStep] at h
  split_ifs at h with ha hb hc
  injection h with h
  injection h with hh hr
  subst hh hr
  have hlen := handlePDU_resp_length s (List.take (h4 * 256 + h5 - 1) stream)
  refine ⟨rfl, rfl, rfl, rfl, ?_, rfl⟩
  simp only [List.getD_cons_succ, List.getD_cons_zero]
  omega

/-- Witness for the C3 theorem: a one-byte PDU with the unknown function
code 0x09 is answered with an exception, and the response header echoes
transaction id AB CD, has protocolID 0, length 3 and unit id 0x11. -/
theorem mbap_response_header_witness :
    handleRequestStep zeroServer [0xAB, 0xCD, 7, 7, 0, 2, 0x11] [0x09]
      = some ([0xAB, 0xCD, 0, 0, 0, 3, 0x11], [0x89, 0x01])
    ∧ (([0xAB, 0xCD, 0, 0, 0, 3, 0x11] : List Nat).getD 0 0 = 0xAB
      ∧ ([0xAB, 0xCD, 0, 0, 0, 3, 0x11] : List Nat).getD 1 0 = 0xCD
      ∧ ([0xAB, 0xCD, 0, 0, 0, 3, 0x11] : List Nat).getD 2 0 = 0
      ∧ ([0xAB, 0xCD, 0, 0, 0, 3, 0x11] : List Nat).getD 3 0 = 0
      ∧ ([0xAB, 0xCD, 0, 0, 0, 3, 0x11] : List Nat).getD 4 0 * 256
          + ([0xAB, 0xCD, 0, 0, 0, 3, 0x11] : List Nat).getD 5 0
          = ([0x89, 0x01] : List Nat).length + 1
      ∧ ([0xAB, 0xCD, 0, 0, 0, 3, 0x11] : List Nat).getD 6 0 = 0x11) :=
  ⟨by decide,
   mbap_response_header zeroServer 0xAB 0xCD 7 7 0 2 0x11 [0x09]
     [0xAB, 0xCD, 0, 0, 0, 3, 0x11] [0x89, 0x01] (by decide)⟩

lemma handlePDU_fst (s : Server) (pdu : List Nat) : (handlePDU s pdu).1 = s := by
  match pdu with
  | [] => rfl
  | function :: rest =>
    by_cases h1 : function = 0x01
    · subst h1
      rw [handlePDU_one]
      cases readBits s.Coils (0x01 :: rest) <;> rfl
    · by_cases h2 : function = 0x02
      · subst h2
        rw [handlePDU_two]
        cases readBits s.DiscreteInputs (0x02 :: rest) <;> rfl
      · by_cases h3 : function = 0x03
        · subst h3
          rw [handlePDU_three]
          cases readRegisters s.HoldingRegisters (0x03 :: rest) <;> rfl
        · by_cases h4 : function = 0x04
          · subst h4
            rw [handlePDU_four]
            cases readRegisters s.InputRegisters (0x04 :: rest) <;> rfl
          · simp [handlePDU, h1, h2, h3, h4]

/-- C10: handling any request PDU leaves all four register arrays of the
TCP slave engine unchanged, and each Set API call succeeds on an in-range
address, updates exactly the addressed entry of the addressed array, and
leaves every other entry and the other three arrays unchanged. -/
theorem register_space_mutation (s : Server) (pdu : List Nat) (a v : Nat) (b : Bool)
    (ha : a < regSize) :
    (handlePDU s pdu).1 = s
    ∧ (∃ s1, SetHoldingRegister s a v = some s1
        ∧ s1.HoldingRegisters a = v
        ∧ (∀ x, x ≠ a → s1.HoldingRegisters x = s.HoldingRegisters x)
        ∧ s1.InputRegisters = s.InputRegisters ∧ s1.Coils = s.Coils
        ∧ s1.DiscreteInputs = s.DiscreteInputs)
    ∧ (∃ s2, SetInputRegister s a v = some s2
        ∧ s2.InputRegisters a = v
        ∧ (∀ x, x ≠ a → s2.InputRegisters x = s.InputRegisters x)
        ∧ s2.HoldingRegisters = s.HoldingRegisters ∧ s2.Coils = s.Coils
        ∧ s2.DiscreteInputs = s.DiscreteInputs)
    ∧ (∃ s3, SetCoil s a b = some s3
        ∧ s3.Coils a = b
        ∧ (∀ x, x ≠ a → s3.Coils x = s.Coils x)
        ∧ s3.HoldingRegisters = s.HoldingRegisters ∧ s3.InputRegisters = s.InputRegisters
        ∧ s3.DiscreteInputs = s.DiscreteInputs)
    ∧ (∃ s4, SetDiscreteInput s a b = some s4
        ∧ s4.DiscreteInputs a = b
        ∧ (∀ x, x ≠ a → s4.DiscreteInputs x = s.DiscreteInputs x)
        ∧ s4.HoldingRegisters = s.HoldingRegisters ∧ s4.InputRegisters = s.InputRegisters
        ∧ s4.Coils = s.Coils) := by
  have hna : ¬ a ≥ regSize := by omega
  refine ⟨handlePDU_fst s pdu, ?_, ?_, ?_, ?_⟩
  · refine ⟨{ s with HoldingRegisters := fun x => if x = a then v else s.HoldingRegisters x },
      by rw [SetHoldingRegister, if_neg hna], if_pos rfl, ?_, rfl, rfl, rfl⟩
    intro x hx
    exact if_neg hx
  · refine ⟨{ s with InputRegisters := fun x => if x = a then v else s.InputRegisters x },
      by rw [SetInputRegister, if_neg hna], if_pos rfl, ?_, rfl, rfl, rfl⟩
    intro x hx
    exact if_neg hx
  · refine ⟨{ s with Coils := fun x => if x = a then b else s.Coils x },
      by rw [SetCoil, if_neg hna], if_pos rfl, ?_, rfl, rfl, rfl⟩
    intro x hx
    exact if_neg hx
  · refine ⟨{ s with DiscreteInputs := fun x => if x = a then b else s.DiscreteInputs x },
      by rw [SetDiscreteInput, if_neg hna], if_pos rfl, ?_, rfl, rfl, rfl⟩
    intro x hx
    exact if_neg hx

end Modbus

/-- Witness for the C10 theorem at the all-zero server, the empty PDU,
address 5, word value 7 and bit value true. -/
theorem register_space_mutation_witness :
    (5:Nat) < Modbus.regSize
    ∧ ((Modbus.handlePDU Modbus.zeroServer []).1 = Modbus.zeroServer
    ∧ (∃ s1, Modbus.SetHoldingRegister Modbus.zeroServer 5 7 = some s1
        ∧ s1.HoldingRegisters 5 = 7
        ∧ (∀ x, x ≠ 5 → s1.HoldingRegisters x = Modbus.zeroServer.HoldingRegisters x)
        ∧ s1.InputRegisters = Modbus.zeroServer.InputRegisters
        ∧ s1.Coils = Modbus.zeroServer.Coils
        ∧ s1.DiscreteInputs = Modbus.zeroServer.DiscreteInputs)
    ∧ (∃ s2, Modbus.SetInputRegister Modbus.zeroServer 5 7 = some s2
        ∧ s2.InputRegisters 5 = 7
        ∧ (∀ x, x ≠ 5 → s2.InputRegisters x = Modbus.zeroServer.InputRegisters x)
        ∧ s2.HoldingRegisters = Modbus.zeroServer.HoldingRegisters
        ∧ s2.Coils = Modbus.zeroServer.Coils
        ∧ s2.DiscreteInputs = Modbus.zeroServer.DiscreteInputs)
    ∧ (∃ s3, Modbus.SetCoil Modbus.zeroServer 5 true = some s3
        ∧ s3.Coils 5 = true
        ∧ (∀ x, x ≠ 5 → s3.Coils x = Modbus.zeroServer.Coils x)
        ∧ s3.HoldingRegisters = Modbus.zeroServer.HoldingRegisters
        ∧ s3.InputRegisters = Modbus.zeroServer.InputRegisters
        ∧ s3.DiscreteInputs = Modbus.zeroServer.DiscreteInputs)
    ∧ (∃ s4, Modbus.SetDiscreteInput Modbus.zeroServer 5 true = some s4
        ∧ s4.DiscreteInputs 5 = true
        ∧ (∀ x, x ≠ 5 → s4.DiscreteInputs x = Modbus.zeroServer.DiscreteInputs x)
        ∧ s4.HoldingRegisters = Modbus.zeroServer.HoldingRegisters
        ∧ s4.InputRegisters = Modbus.zeroServer.InputRegisters
        ∧ s4.Coils = Modbus.zeroServer.Coils)) :=
  ⟨by decide, Modbus.register_space_mutation Modbus.zeroServer [] 5 7 true (by decide)⟩

namespace RTU

/-- Register store of the RTU slave engine (struct store in the RTU-over-TCP
simulator): four dense arrays of 65536 entries, modelled as functions. -/
structure Store where
  coils : Nat → Bool
  discreteInputs : Nat → Bool
  holding : Nat → Nat
  input : Nat → Nat

/-- A store whose registers are all zero / false. -/
def zeroStore : Store :=
  { coils := fun _ => false
    discreteInputs := fun _ => false
    holding := fun _ => 0
    input := fun _ => 0 }

/-- readBits from the RTU source: same packing loop as the TCP engine's
readBits, but with start and qty already parsed. -/
def readBits (src : Nat → Bool) (start qty : Nat) : Option (List Nat) :=
  if qty = 0 ∨ qty > 2000 then none
  else if start + qty > Modbus.regSize then none
  else some (Modbus.packBits src start qty)

/-- readRegs from the RTU source. -/
def readRegs (src : Nat → Nat) (start qty : Nat) : Option (List Nat) :=
  if qty = 0 ∨ qty > 125 then none
  else if start + qty > Modbus.regSize then none
  else some (Modbus.encodeRegs src start qty)

/-- writeSingleCoil from the RTU source: address bound check, then the
value must be exactly 0xFF00 or 0x0000; the coil becomes value == 0xFF00. -/
def writeSingleCoil (dst : Nat → Bool) (addr value : Nat) : Option (Nat → Bool) :=
  if addr ≥ Modbus.regSize then none
  else if value ≠ 0xFF00 ∧ value ≠ 0x0000 then none
  else some (fun x => if x = addr then value == 0xFF00 else dst x)

/-- writeSingleReg from the RTU source. -/
def writeSingleReg (dst : Nat → Nat) (addr value : Nat) : Option (Nat → Nat) :=
  if addr ≥ Modbus.regSize then none
  else some (fun x => if x = addr then value else dst x)

/-- The bit-extraction loop of writeMultipleCoils: for count iterations,
dst[start+i] := (payload[i/8] >> (i%8)) & 1 == 1. -/
def writeCoilsLoop (payload : List Nat) (start : Nat) : Nat → Nat → (Nat → Bool) → (Nat → Bool)
  | _, 0, dst => dst
  | i, count + 1, dst =>
    writeCoilsLoop payload start (i + 1) count
      (fun x => if x = start + i then (payload.getD (i / 8) 0 >>> (i % 8)) &&& 1 == 1 else dst x)

/-- writeMultipleCoils from the RTU source. -/
def writeMultipleCoils (dst : Nat → Bool) (start qty : Nat) (payload : List Nat) :
    Option (Nat → Bool) :=
  if qty = 0 ∨ qty > 1968 then none
  else if start + qty > Modbus.regSize then none
  else some (writeCoilsLoop payload start 0 qty dst)

/-- The word loop of writeMultipleRegs: dst[start+i] := big-endian word at
payload[2i..2i+1]. -/
def writeRegsLoop (payload : List Nat) (start : Nat) : Nat → Nat → (Nat → Nat) → (Nat → Nat)
  | _, 0, dst => dst
  | i, count + 1, dst =>
    writeRegsLoop payload start (i + 1) count
      (fun x => if x = start + i then payload.getD (2 * i) 0 * 256 + payload.getD (2 * i + 1) 0
        else dst x)

/-- writeMultipleRegs from the RTU source. -/
def writeMultipleRegs (dst : Nat → Nat) (start qty : Nat) (payload : List Nat) :
    Option (Nat → Nat) :=
  if qty = 0 ∨ qty > 123 then none
  else if payload.length ≠ 2 * qty then none
  else if start + qty > Modbus.regSize then none
  else some (writeRegsLoop payload start 0 qty dst)

/-- exception from the RTU source: the function byte OR 0x80 and, for every
handler error whatever its kind, the fixed exception code 0x02. -/
def exception (fn : Nat) : List Nat := [fn ||| 0x80, 0x02]

/-- handleRTUPDU from the RTU source: dispatch by function code; a Go-level
error (empty or malformed PDU) is none, otherwise the updated store and the
response PDU. -/
def handleRTUPDU (st : Store) (pdu : List Nat) : Option (Store × List Nat) :=
  match pdu with
  | [] => none
  | fn :: _ =>
    if fn = 0x01 then
      if pdu.length < 5 then none
      else match readBits st.coils (pdu.getD 1 0 * 256 + pdu.getD 2 0)
          (pdu.getD 3 0 * 256 + pdu.getD 4 0) with
        | none => some (st, exception fn)
        | some data => some (st, fn :: data.length % 256 :: data)
    else if fn = 0x02 then
      if pdu.length < 5 then none
      else match readBits st.discreteInputs (pdu.getD 1 0 * 256 + pdu.getD 2 0)
          (pdu.getD 3 0 * 256 + pdu.getD 4 0) with
        | none => some (st, exception fn)
        | some data => some (st, fn :: data.length % 256 :: data)
    else if fn = 0x03 then
      if pdu.length < 5 then none
      else match readRegs st.holding (pdu.getD 1 0 * 256 + pdu.getD 2 0)
          (pdu.getD 3 0 * 256 + pdu.getD 4 0) with
        | none => some (st, exception fn)
        | some data => some (st, fn :: data.length % 256 :: data)
    else if fn = 0x04 then
      if pdu.length < 5 then none
      else match readRegs st.input (pdu.getD 1 0 * 256 + pdu.getD 2 0)
          (pdu.getD 3 0 * 256 + pdu.getD 4 0) with
        | none => some (st, exception fn)
        | some data => some (st, fn :: data.length % 256 :: data)
    else if fn = 0x05 then
      if pdu.length < 5 then none
      else match writeSingleCoil st.coils (pdu.getD 1 0 * 256 + pdu.getD 2 0)
          (pdu.getD 3 0 * 256 + pdu.getD 4 0) with
        | none => some (st, exception fn)
        | some coils2 =>
          some ({ st with coils := coils2 },
            [fn, pdu.getD 1 0, pdu.getD 2 0, pdu.getD 3 0, pdu.getD 4 0])
    else if fn = 0x06 then
      if pdu.length < 5 then none
      else match writeSingleReg st.holding (pdu.getD 1 0 * 256 + pdu.getD 2 0)
          (pdu.getD 3 0 * 256 + pdu.getD 4 0) with
        | none => some (st, exception fn)
        | some holding2 =>
          some ({ st with holding := holding2 },
            [fn, pdu.getD 1 0, pdu.getD 2 0, pdu.getD 3 0, pdu.getD 4 0])
    else if fn = 0x0F then
      if pdu.length < 6 then none
      else if pdu.length ≠ 6 + pdu.getD 5 0 then none
      else match writeMultipleCoils st.coils (pdu.getD 1 0 * 256 + pdu.getD 2 0)
          (pdu.getD 3 0 * 256 + pdu.getD 4 0) (pdu.drop 6) with
        | none => some (st, exception fn)
        | some coils2 =>
          some ({ st with coils := coils2 },
            [fn, (pdu.getD 1 0 * 256 + pdu.getD 2 0) / 256 % 256,
              (pdu.getD 1 0 * 256 + pdu.getD 2 0) % 256,
              (pdu.getD 3 0 * 256 + pdu.getD 4 0) / 256 % 256,
              (pdu.getD 3 0 * 256 + pdu.getD 4 0) % 256])
    else if fn = 0x10 then
      if pdu.length < 6 then none
      else if pdu.length ≠ 6 + pdu.getD 5 0 then none
      else match writeMultipleRegs st.holding (pdu.getD 1 0 * 256 + pdu.getD 2 0)
          (pdu.getD 3 0 * 256 + pdu.getD 4 0) (pdu.drop 6) with
        | none => some (st, exception fn)
        | some holding2 =>
          some ({ st with holding := holding2 },
            [fn, (pdu.getD 1 0 * 256 + pdu.getD 2 0) / 256 % 256,
              (pdu.getD 1 0 * 256 + pdu.getD 2 0) % 256,
              (pdu.getD 3 0 * 256 + pdu.getD 4 0) / 256 % 256,
              (pdu.getD 3 0 * 256 + pdu.getD 4 0) % 256])
    else some (st, [fn ||| 0x80, 0x01])

end RTU

namespace RTU

lemma handleRTUPDU_five (st : Store) (a1 a0 v1 v0 : Nat) :
    handleRTUPDU st [0x05, a1, a0, v1, v0] =
      (match writeSingleCoil st.coils (a1 * 256 + a0) (v1 * 256 + v0) with
       | none => some (st, exception 0x05)
       | some coils2 => some ({ st with coils := coils2 }, [0x05, a1, a0, v1, v0])) := rfl

/-- C4 counterexample: on the RTU slave engine, the write-single-coil
request 05 00 00 12 34 (value 0x1234, neither 0xFF00 nor 0x0000) yields the
exception code 0x02, not the IllegalDataValue code 0x03 the claim states,
and the store is unchanged. -/
theorem rtu_write_coil_bad_value_code :
    handleRTUPDU zeroStore [0x05, 0x00, 0x00, 0x12, 0x34]
      = some (zeroStore, [0x85, 0x02])
    ∧ ([0x85, 0x02] : List Nat) ≠ [0x85, 0x03] :=
  ⟨rfl, by decide⟩

/-- C4 amended: a write-single-coil value of exactly 0xFF00 sets the coil
true, exactly 0x0000 sets it false (echoing the request), and any other
value yields the exception response with code 0x02 (the engine maps every
handler error to 0x02) with the store unchanged. -/
theorem rtu_write_single_coil (st : Store) (a1 a0 v1 v0 : Nat)
    (ha1 : a1 < 256) (ha0 : a0 < 256) :
    (v1 * 256 + v0 = 0xFF00 →
      ∃ st2, handleRTUPDU st [0x05, a1, a0, v1, v0] = some (st2, [0x05, a1, a0, v1, v0])
        ∧ st2.coils (a1 * 256 + a0) = true
        ∧ (∀ x, x ≠ a1 * 256 + a0 → st2.coils x = st.coils x)
        ∧ st2.discreteInputs = st.discreteInputs
        ∧ st2.holding = st.holding ∧ st2.input = st.input)
    ∧ (v1 * 256 + v0 = 0 →
      ∃ st2, handleRTUPDU st [0x05, a1, a0, v1, v0] = some (st2, [0x05, a1, a0, v1, v0])
        ∧ st2.coils (a1 * 256 + a0) = false
        ∧ (∀ x, x ≠ a1 * 256 + a0 → st2.coils x = st.coils x)
        ∧ st2.discreteInputs = st.discreteInputs
        ∧ st2.holding = st.holding ∧ st2.input = st.input)
    ∧ (v1 * 256 + v0 ≠ 0xFF00 → v1 * 256 + v0 ≠ 0 →
      handleRTUPDU st [0x05, a1, a0, v1, v0] = some (st, [0x05 ||| 0x80, 0x02])) := by
  have haddr : ¬ a1 * 256 + a0 ≥ Modbus.regSize := by
    simp only [Modbus.regSize]; omega
  refine ⟨?_, ?_, ?_⟩
  · intro hv
    refine ⟨{ st with coils := fun x => if x = a1 * 256 + a0
        then (v1 * 256 + v0) == 0xFF00 else st.coils x }, ?_, ?_, ?_, rfl, rfl, rfl⟩
    · rw [handleRTUPDU_five, writeSingleCoil, if_neg haddr, if_neg (by omega)]
    · show (if a1 * 256 + a0 = a1 * 256 + a0 then (v1 * 256 + v0) == 0xFF00
        else st.coils (a1 * 256 + a0)) = true
      rw [if_pos rfl, hv]
      decide
    · intro x hx
      show (if x = a1 * 256 + a0 then (v1 * 256 + v0) == 0xFF00 else st.coils x) = st.coils x
      rw [if_neg hx]
  · intro hv
    refine ⟨{ st with coils := fun x => if x = a1 * 256 + a0
        then (v1 * 256 + v0) == 0xFF00 else st.coils x }, ?_, ?_, ?_, rfl, rfl, rfl⟩
    · rw [handleRTUPDU_five, writeSingleCoil, if_neg haddr, if_neg (by omega)]
    · show (if a1 * 256 + a0 = a1 * 256 + a0 then (v1 * 256 + v0) == 0xFF00
        else st.coils (a1 * 256 + a0)) = false
      rw [if_pos rfl, hv]
      decide
    · intro x hx
      show (if x = a1 * 256 + a0 then (v1 * 256 + v0) == 0xFF00 else st.coils x) = st.coils x
      rw [if_neg hx]
  · intro hv1 hv2
    rw [handleRTUPDU_five, writeSingleCoil, if_neg haddr, if_pos ⟨hv1, by omega⟩]
    rfl

/-- Witness for the amended C4 theorem: writing 0xFF00 to coil 2 of the
all-zero store sets it true and echoes the request. -/
theorem rtu_write_single_coil_witness :
    ((0:Nat) < 256) ∧ ((2:Nat) < 256) ∧ ((0xFF:Nat) * 256 + 0 = 0xFF00)
    ∧ (∃ st2, handleRTUPDU zeroStore [0x05, 0, 2, 0xFF, 0]
          = some (st2, [0x05, 0, 2, 0xFF, 0])
        ∧ st2.coils (0 * 256 + 2) = true
        ∧ (∀ x, x ≠ 0 * 256 + 2 → st2.coils x = zeroStore.coils x)
        ∧ st2.discreteInputs = zeroStore.discreteInputs
        ∧ st2.holding = zeroStore.holding ∧ st2.input = zeroStore.input) :=
  ⟨by decide, by decide, by decide,
   (rtu_write_single_coil zeroStore 0 2 0xFF 0 (by decide) (by decide)).1 (by decide)⟩

end RTU

namespace Storage

/-- ValueCache from internal/utils/cache.go: a TTL cache of float values,
keyed by string; entries carry the value and the time they were stored.
Time is in nanoseconds, floats as rationals. -/
structure ValueCache where
  ttl : Int
  data : String → Option (ℚ × Int)

/-- NewValueCache: a ttl of at most 0 defaults to one hour. -/
def NewValueCache (ttl : Int) : ValueCache :=
  { ttl := if ttl ≤ 0 then 3600 * 1000000000 else ttl, data := fun _ => none }

/-- GetValue: returns the cached value if present and not expired
(time.Since(e.at) > ttl, i.e. now - storedAt > ttl, counts as expired and
deletes the entry). -/
def GetValue (c : ValueCache) (now : Int) (key : String) : Option ℚ × ValueCache :=
  match c.data key with
  | none => (none, c)
  | some (v, t0) =>
    if now - t0 > c.ttl then
      (none, { c with data := fun k => if k = key then none else c.data k })
    else (some v, c)

/-- SetValue: stores the value with the current timestamp. -/
def SetValue (c : ValueCache) (now : Int) (key : String) (v : ℚ) : ValueCache :=
  { c with data := fun k => if k = key then some (v, now) else c.data k }

/-- Modelled from the spec: utils.FloatsEqual is called by the dedup
wrapper in the collector manager but its source file is not part of the
repository snapshot; per the spec it holds iff
|v - v_cached| <= 1e-9 * max(1, |v|, |v_cached|). -/
def FloatsEqual (a b : ℚ) : Bool :=
  decide (|a - b| ≤ 1 / 1000000000 * max 1 (max |a| |b|))

/-- Dedup cache key built by the wrapper:
deviceID|pointName|register|serverID. -/
def keyOf (deviceID pointName register serverID : String) : String :=
  deviceID ++ "|" ++ pointName ++ "|" ++ register ++ "|" ++ serverID

/-- Outcome of one call of the dedup-wrapped OnValue handler. -/
structure DedupResult where
  cache : ValueCache
  ok : Bool
  sinkCalled : Bool

/-- The dedup wrapper installed by Manager.Run around the storage handler:
on a fresh non-expired cache hit that compares equal, skip the sink and
return success; otherwise call the sink and, on sink success, refresh the
cache. sinkOk abstracts whether the storage handler returned nil. -/
def dedupHandle (vc : ValueCache) (now : Int) (key : String) (v : ℚ) (sinkOk : Bool) :
    DedupResult :=
  match GetValue vc now key with
  | (some old, vc2) =>
    if FloatsEqual old v then ⟨vc2, true, false⟩
    else if sinkOk then ⟨SetValue vc2 now key v, true, true⟩ else ⟨vc2, false, true⟩
  | (none, vc2) =>
    if sinkOk then ⟨SetValue vc2 now key v, true, true⟩ else ⟨vc2, false, true⟩

lemma dedup_spec (vc : ValueCache) (now : Int) (key : String) (v : ℚ) (sinkOk : Bool) :
    (((dedupHandle vc now key v sinkOk).sinkCalled = false
        ∧ (dedupHandle vc now key v sinkOk).ok = true)
      ↔ (∃ o t0, vc.data key = some (o, t0) ∧ now - t0 ≤ vc.ttl ∧ FloatsEqual o v = true))
    ∧ ((∃ o t0, vc.data key = some (o, t0) ∧ now - t0 ≤ vc.ttl ∧ FloatsEqual o v = true) →
        (dedupHandle vc now key v sinkOk).cache = vc)
    ∧ (¬(∃ o t0, vc.data key = some (o, t0) ∧ now - t0 ≤ vc.ttl ∧ FloatsEqual o v = true) →
        sinkOk = true →
        (dedupHandle vc now key v sinkOk).cache.data key = some (v, now)) := by
  rcases hdata : vc.data key with _ | ⟨o, t0⟩
  · have hget : GetValue vc now key = (none, vc) := by
      rw [GetValue, hdata]
    have hd : dedupHandle vc now key v sinkOk =
        if sinkOk then ⟨SetValue vc now key v, true, true⟩ else ⟨vc, false, true⟩ := by
      rw [dedupHandle, hget]
    refine ⟨?_, ?_, ?_⟩
    · constructor
      · intro ⟨hsc, _⟩
        rw [hd] at hsc
        split at hsc <;> simp at hsc
      · rintro ⟨o, t0, h, _, _⟩
        exact absurd h (by simp)
    · rintro ⟨o, t0, h, _, _⟩
      exact absurd h (by simp)
    · intro _ hok
      subst hok
      rw [hd, if_pos rfl]
      show (if key = key then some (v, now) else vc.data key) = some (v, now)
      rw [if_pos rfl]
  · by_cases hexp : now - t0 > vc.ttl
    · have hget : GetValue vc now key =
          (none, { vc with data := fun k => if k = key then none else vc.data k }) := by
        rw [GetValue, hdata]
        show (if now - t0 > vc.ttl then
            ((none : Option ℚ), { vc with data := fun k => if k = key then none else vc.data k })
          else (some o, vc)) = _
        rw [if_pos hexp]
      have hd : dedupHandle vc now key v sinkOk =
          if sinkOk then
            ⟨SetValue { vc with data := fun k => if k = key then none else vc.data k }
              now key v, true, true⟩
          else ⟨{ vc with data := fun k => if k = key then none else vc.data k },
            false, true⟩ := by
        rw [dedupHandle, hget]
      refine ⟨?_, ?_, ?_⟩
      · constructor
        · intro ⟨hsc, _⟩
          rw [hd] at hsc
          split at hsc <;> simp at hsc
        · rintro ⟨o2, t2, h, hle, _⟩
          injection h with h
          injection h with h1 h2
          subst h1 h2
          omega
      · rintro ⟨o2, t2, h, hle, _⟩
        injection h with h
        injection h with h1 h2
        subst h1 h2
        omega
      · intro _ hok
        subst hok
        rw [hd, if_pos rfl]
        show (if key = key then some (v, now) else _) = some (v, now)
        rw [if_pos rfl]
    · have hget : GetValue vc now key = (some o, vc) := by
        rw [GetValue, hdata]
        show (if now - t0 > vc.ttl then
            ((none : Option ℚ), { vc with data := fun k => if k = key then none else vc.data k })
          else (some o, vc)) = _
        rw [if_neg hexp]
      by_cases hfe : FloatsEqual o v
      · have hd : dedupHandle vc now key v sinkOk = ⟨vc, true, false⟩ := by
          rw [dedupHandle, hget]
          show (if FloatsEqual o v then (⟨vc, true, false⟩ : DedupResult)
            else if sinkOk then ⟨SetValue vc now key v, true, true⟩
            else ⟨vc, false, true⟩) = _
          rw [if_pos hfe]
        refine ⟨?_, ?_, ?_⟩
        · constructor
          · intro _
            exact ⟨o, t0, rfl, by omega, hfe⟩
          · intro _
            rw [hd]
            exact ⟨rfl, rfl⟩
        · intro _
          rw [hd]
        · intro hn _
          exact absurd ⟨o, t0, rfl, by omega, hfe⟩ hn
      · have hd : dedupHandle vc now key v sinkOk =
            if sinkOk then ⟨SetValue vc now key v, true, true⟩ else ⟨vc, false, true⟩ := by
          rw [dedupHandle, hget]
          show (if FloatsEqual o v then (⟨vc, true, false⟩ : DedupResult)
            else if sinkOk then ⟨SetValue vc now key v, true, true⟩
            else ⟨vc, false, true⟩) = _
          rw [if_neg hfe]
        refine ⟨?_, ?_, ?_⟩
        · constructor
          · intro ⟨hsc, _⟩
            rw [hd] at hsc
            split at hsc <;> simp at hsc
          · rintro ⟨o2, t2, h, _, hfe2⟩
            injection h with h
            injection h with h1 h2
            subst h1
            exact absurd hfe2 (by simp [hfe])
        · rintro ⟨o2, t2, h, _, hfe2⟩
          injection h with h
          injection h with h1 h2
          subst h1
          exact absurd hfe2 (by simp [hfe])
        · intro _ hok
          subst hok
          rw [hd, if_pos rfl]
          show (if key = key then some (v, now) else vc.data key) = some (v, now)
          rw [if_pos rfl]

/-- C6: the dedup wrapper suppresses an incoming value (skips the sink and
returns success) iff the cache holds an entry for the key
deviceID|pointName|register|serverID whose age is at most the TTL and whose
value compares equal under FloatsEqual; a suppression leaves the cache
(and so the cached timestamp) unchanged; a non-equal or expired value with
a successful sink refreshes the cache entry to (v, now); and a non-positive
configured TTL defaults to one hour. -/
theorem storage_dedup_suppression (vc : ValueCache) (now : Int)
    (deviceID pointName register serverID : String) (v : ℚ) (sinkOk : Bool) (ttl0 : Int) :
    (((dedupHandle vc now (keyOf deviceID pointName register serverID) v sinkOk).sinkCalled
          = false
        ∧ (dedupHandle vc now (keyOf deviceID pointName register serverID) v sinkOk).ok = true)
      ↔ (∃ o t0, vc.data (keyOf deviceID pointName register serverID) = some (o, t0)
          ∧ now - t0 ≤ vc.ttl ∧ FloatsEqual o v = true))
    ∧ ((∃ o t0, vc.data (keyOf deviceID pointName register serverID) = some (o, t0)
          ∧ now - t0 ≤ vc.ttl ∧ FloatsEqual o v = true) →
        (dedupHandle vc now (keyOf deviceID pointName register serverID) v sinkOk).cache = vc)
    ∧ (¬(∃ o t0, vc.data (keyOf deviceID pointName register serverID) = some (o, t0)
          ∧ now - t0 ≤ vc.ttl ∧ FloatsEqual o v = true) →
        sinkOk = true →
        (dedupHandle vc now (keyOf deviceID pointName register serverID) v sinkOk).cache.data
            (keyOf deviceID pointName register serverID) = some (v, now))
    ∧ (NewValueCache ttl0).ttl = (if ttl0 ≤ 0 then 3600 * 1000000000 else ttl0) :=
  ⟨(dedup_spec vc now (keyOf deviceID pointName register serverID) v sinkOk).1,
   (dedup_spec vc now (keyOf deviceID pointName register serverID) v sinkOk).2.1,
   (dedup_spec vc now (keyOf deviceID pointName register serverID) v sinkOk).2.2,
   rfl⟩

/-- Witness for the C6 theorem: with TTL 20 ns, a value 21 cached at t=100
and re-offered at t=110 is a suppression hit, and the cache is unchanged. -/
theorem storage_dedup_suppression_witness :
    (∃ o t0, (SetValue (NewValueCache 20) 100 (keyOf "d" "p" "r" "s") 21).data
          (keyOf "d" "p" "r" "s") = some (o, t0)
        ∧ (110:Int) - t0 ≤ (SetValue (NewValueCache 20) 100 (keyOf "d" "p" "r" "s") 21).ttl
        ∧ FloatsEqual o 21 = true)
    ∧ (dedupHandle (SetValue (NewValueCache 20) 100 (keyOf "d" "p" "r" "s") 21) 110
          (keyOf "d" "p" "r" "s") 21 true).cache
        = SetValue (NewValueCache 20) 100 (keyOf "d" "p" "r" "s") 21 :=
  ⟨⟨21, 100, by decide, by decide, by simp [FloatsEqual]⟩,
   (storage_dedup_suppression (SetValue (NewValueCache 20) 100 (keyOf "d" "p" "r" "s") 21)
      110 "d" "p" "r" "s" 21 true 0).2.1 ⟨21, 100, by decide, by decide, by simp [FloatsEqual]⟩⟩

end Storage

namespace Mgr

/-- Lower-cased character list of a string, the effect of Go's
strings.ToLower on the compared option strings. -/
def lowerChars (s : String) : List Char := s.data.map Char.toLower

/-- A configured register point (collector.PointConfig as used by the
server manager): name, address, register type, data type, scale, offset. -/
structure Point where
  name : String
  address : Nat
  registerType : String
  dataType : String
  scale : ℚ
  offset : ℚ

/-- Lookup of a trimmed point name in one CSV row (map[column]float64). -/
def rowLookup : List (String × ℚ) → List Char → Option ℚ
  | [], _ => none
  | (k, v) :: rest, key => if k.data = key then some v else rowLookup rest key

/-- math.Round: round half away from zero. -/
def roundGo (x : ℚ) : Int :=
  if x < 0 then -(Int.floor (-x + 1 / 2)) else Int.floor (x + 1 / 2)

/-- floatToUint16 from the manager source: round, reject outside
[0, 65535]. The NaN/Inf guard of the Go code cannot fire on rationals. -/
def floatToUint16 (value : ℚ) : Option Nat :=
  if roundGo value < 0 ∨ roundGo value > 65535 then none
  else some (roundGo value).toNat

/-- floatToInt16 from the manager source: round, reject outside
[-32768, 32767], and return the 16-bit two's-complement word
uint16(int16(rounded)). -/
def floatToInt16 (value : ℚ) : Option Nat :=
  if roundGo value < -32768 ∨ roundGo value > 32767 then none
  else some ((roundGo value % 65536).toNat)

/-- Round to the nearest integer, ties to even: the rounding used by the
hardware float64 to float32 conversion. -/
def roundHalfEven (x : ℚ) : Int :=
  if x - Int.floor x < 1 / 2 then Int.floor x
  else if x - Int.floor x > 1 / 2 then Int.floor x + 1
  else if Int.floor x % 2 = 0 then Int.floor x else Int.floor x + 1

/-- IEEE-754 binary32 bits of a rational under round-to-nearest-even, the
model of Go's float32(scaled) cast; none models overflow to infinity
(caught by the Go code's IsInf check). Subnormals and the rollover to the
next binade are handled by the significand arithmetic. -/
def toFloat32bits (x : ℚ) : Option Nat :=
  if x = 0 then some 0
  else
    let s : Nat := if x < 0 then 2 ^ 31 else 0
    let m := |x|
    let e : Int := Int.log 2 m
    if e < -126 then
      some (s + (roundHalfEven (m * (2:ℚ) ^ (149:Int))).toNat)
    else
      let n := roundHalfEven (m * (2:ℚ) ^ (23 - e))
      let e2 := if n = 2 ^ 24 then e + 1 else e
      let n2 : Int := if n = 2 ^ 24 then 2 ^ 23 else n
      if e2 > 127 then none
      else some (s + (e2 + 127).toNat * 2 ^ 23 + (n2 - 2 ^ 23).toNat)

/-- setRegisterWord from the manager source: one 16-bit word to a holding
or input register. -/
def setRegisterWord (server : Modbus.Server) (regType : List Char) (address word : Nat) :
    Option Modbus.Server :=
  if regType = "holding".data then Modbus.SetHoldingRegister server address word
  else if regType = "input".data then Modbus.SetInputRegister server address word
  else none

/-- setRegisterFloat32 from the manager source: reject address 65535, cast
to float32 with overflow check, then write the high word at address and
the low word at address+1. -/
def setRegisterFloat32 (server : Modbus.Server) (regType : List Char) (address : Nat)
    (scaled : ℚ) : Option Modbus.Server :=
  if address = 65535 then none
  else match toFloat32bits scaled with
    | none => none
    | some bits =>
      match setRegisterWord server regType address ((bits >>> 16) % 65536) with
      | none => none
      | some s2 => setRegisterWord s2 regType (address + 1) (bits % 65536)

/-- writeNumericRegister from the manager source. -/
def writeNumericRegister (server : Modbus.Server) (regType : List Char) (address : Nat)
    (dataType : List Char) (scaled : ℚ) : Option Modbus.Server :=
  if dataType = "uint16".data then
    match floatToUint16 scaled with
    | none => none
    | some word => setRegisterWord server regType address word
  else if dataType = "int16".data then
    match floatToInt16 scaled with
    | none => none
    | some word => setRegisterWord server regType address word
  else if dataType = "float32".data then setRegisterFloat32 server regType address scaled
  else none

/-- The scale/offset transform of applyRowToServer: raw*scale + offset,
with a zero scale coerced to 1. -/
def scaledValue (p : Point) (raw : ℚ) : ℚ :=
  raw * (if p.scale = 0 then 1 else p.scale) + p.offset

/-- The write step of applyRowToServer once the raw value is found: write
by register type and data type (empty data type defaults to uint16); write
errors are logged and leave the server as it was. -/
def applyPointValue (server : Modbus.Server) (p : Point) (raw : ℚ) : Modbus.Server :=
  if lowerChars p.registerType = "holding".data
      ∨ lowerChars p.registerType = "input".data then
    match writeNumericRegister server (lowerChars p.registerType) p.address
        (if lowerChars p.dataType = [] then "uint16".data else lowerChars p.dataType)
        (scaledValue p raw) with
    | none => server
    | some s2 => s2
  else if lowerChars p.registerType = "coil".data then
    (Modbus.SetCoil server p.address (decide (scaledValue p raw > 0))).getD server
  else if lowerChars p.registerType = "discrete".data then
    (Modbus.SetDiscreteInput server p.address (decide (scaledValue p raw > 0))).getD server
  else server

/-- The per-point body of applyRowToServer: look the trimmed point name up
in the row; a missing column skips the point. -/
def applyPointToServer (server : Modbus.Server) (row : List (String × ℚ)) (p : Point) :
    Modbus.Server :=
  match rowLookup row (trimChars p.name.data) with
  | none => server
  | some raw => applyPointValue server p raw

/-- applyRowToServer from the manager source, over the flattened list of
configured points: rows are cycled by index, an empty row set is a no-op. -/
def applyRowToServer (server : Modbus.Server) (points : List Point)
    (rows : List (List (String × ℚ))) (index : Nat) : Modbus.Server :=
  if rows = [] then server
  else points.foldl (fun sv p => applyPointToServer sv (rows.getD index []) p) server

end Mgr

namespace Mgr

lemma setRegisterWord_holding (server : Modbus.Server) (address word : Nat)
    (ha : address < 65536) :
    setRegisterWord server "holding".data address word =
      some { server with HoldingRegisters :=
        fun x => if x = address then word else server.HoldingRegisters x } := by
  rw [setRegisterWord, if_pos rfl, Modbus.SetHoldingRegister,
    if_neg (show ¬ address ≥ Modbus.regSize by simp only [Modbus.regSize]; omega)]

lemma setRegisterWord_input (server : Modbus.Server) (address word : Nat)
    (ha : address < 65536) :
    setRegisterWord server "input".data address word =
      some { server with InputRegisters :=
        fun x => if x = address then word else server.InputRegisters x } := by
  rw [setRegisterWord, if_neg (by decide), if_pos rfl, Modbus.SetInputRegister,
    if_neg (show ¬ address ≥ Modbus.regSize by simp only [Modbus.regSize]; omega)]

/-- A single 16-bit word was written to the addressed entry of the array
selected by rt, everything else unchanged. -/
def wordWritten (server s2 : Modbus.Server) (rt : List Char) (address word : Nat) : Prop :=
  (rt = "holding".data →
    s2.HoldingRegisters address = word
    ∧ (∀ x, x ≠ address → s2.HoldingRegisters x = server.HoldingRegisters x)
    ∧ s2.InputRegisters = server.InputRegisters
    ∧ s2.Coils = server.Coils ∧ s2.DiscreteInputs = server.DiscreteInputs)
  ∧ (rt = "input".data →
    s2.InputRegisters address = word
    ∧ (∀ x, x ≠ address → s2.InputRegisters x = server.InputRegisters x)
    ∧ s2.HoldingRegisters = server.HoldingRegisters
    ∧ s2.Coils = server.Coils ∧ s2.DiscreteInputs = server.DiscreteInputs)

/-- The two halves of a float32 were written with the high word at address
and the low word at address+1, everything else unchanged. -/
def float32Written (server s2 : Modbus.Server) (rt : List Char) (address bits : Nat) : Prop :=
  (rt = "holding".data →
    s2.HoldingRegisters address = (bits >>> 16) % 65536
    ∧ s2.HoldingRegisters (address + 1) = bits % 65536
    ∧ (∀ x, x ≠ address → x ≠ address + 1 →
        s2.HoldingRegisters x = server.HoldingRegisters x)
    ∧ s2.InputRegisters = server.InputRegisters
    ∧ s2.Coils = server.Coils ∧ s2.DiscreteInputs = server.DiscreteInputs)
  ∧ (rt = "input".data →
    s2.InputRegisters address = (bits >>> 16) % 65536
    ∧ s2.InputRegisters (address + 1) = bits % 65536
    ∧ (∀ x, x ≠ address → x ≠ address + 1 →
        s2.InputRegisters x = server.InputRegisters x)
    ∧ s2.HoldingRegisters = server.HoldingRegisters
    ∧ s2.Coils = server.Coils ∧ s2.DiscreteInputs = server.DiscreteInputs)

lemma applyPoint_found (server : Modbus.Server) (row : List (String × ℚ)) (p : Point)
    (raw : ℚ) (hlook : rowLookup row (trimChars p.name.data) = some raw) :
    applyPointToServer server row p = applyPointValue server p raw := by
  rw [applyPointToServer, hlook]

lemma setRegisterWord_written (server : Modbus.Server) (rt : List Char) (address word : Nat)
    (ha : address < 65536)
    (hrt : rt = "holding".data ∨ rt = "input".data) :
    ∃ s2, setRegisterWord server rt address word = some s2
      ∧ wordWritten server s2 rt address word := by
  rcases hrt with h | h <;> subst h
  · refine ⟨_, setRegisterWord_holding server address word ha, ?_, ?_⟩
    · intro _
      refine ⟨if_pos rfl, fun x hx => if_neg hx, rfl, rfl, rfl⟩
    · intro h
      exact absurd h (by decide)
  · refine ⟨_, setRegisterWord_input server address word ha, ?_, ?_⟩
    · intro h
      exact absurd h (by decide)
    · intro _
      refine ⟨if_pos rfl, fun x hx => if_neg hx, rfl, rfl, rfl⟩

end Mgr

namespace Mgr

lemma setRegisterFloat32_spec (server : Modbus.Server) (rt : List Char) (address : Nat)
    (scaled : ℚ) (ha : address < 65535)
    (hrt : rt = "holding".data ∨ rt = "input".data) :
    (toFloat32bits scaled = none → setRegisterFloat32 server rt address scaled = none)
    ∧ (∀ bits, toFloat32bits scaled = some bits →
        ∃ s2, setRegisterFloat32 server rt address scaled = some s2
          ∧ float32Written server s2 rt address bits) := by
  have hne : address ≠ 65535 := by omega
  constructor
  · intro hn
    rw [setRegisterFloat32, if_neg hne, hn]
  · intro bits hb
    rcases hrt with h | h <;> subst h
    · refine ⟨{ server with HoldingRegisters := fun x =>
          if x = address + 1 then bits % 65536
          else if x = address then (bits >>> 16) % 65536
          else server.HoldingRegisters x }, ?_, ?_, ?_⟩
      · simp only [setRegisterFloat32, if_neg hne, hb,
          setRegisterWord_holding server address ((bits >>> 16) % 65536) (by omega),
          setRegisterWord_holding
            { server with HoldingRegisters := fun x =>
                if x = address then (bits >>> 16) % 65536 else server.HoldingRegisters x }
            (address + 1) (bits % 65536) (by omega)]
      · intro _
        refine ⟨?_, ?_, ?_, rfl, rfl, rfl⟩
        · show (if address = address + 1 then bits % 65536
            else if address = address then (bits >>> 16) % 65536
            else server.HoldingRegisters address) = (bits >>> 16) % 65536
          rw [if_neg (by omega), if_pos rfl]
        · show (if address + 1 = address + 1 then bits % 65536
            else if address + 1 = address then (bits >>> 16) % 65536
            else server.HoldingRegisters (address + 1)) = bits % 65536
          rw [if_pos rfl]
        · intro x hx1 hx2
          show (if x = address + 1 then bits % 65536
            else if x = address then (bits >>> 16) % 65536
            else server.HoldingRegisters x) = server.HoldingRegisters x
          rw [if_neg hx2, if_neg hx1]
      · intro h
        exact absurd h (by decide)
    · refine ⟨{ server with InputRegisters := fun x =>
          if x = address + 1 then bits % 65536
          else if x = address then (bits >>> 16) % 65536
          else server.InputRegisters x }, ?_, ?_, ?_⟩
      · simp only [setRegisterFloat32, if_neg hne, hb,
          setRegisterWord_input server address ((bits >>> 16) % 65536) (by omega),
          setRegisterWord_input
            { server with InputRegisters := fun x =>
                if x = address then (bits >>> 16) % 65536 else server.InputRegisters x }
            (address + 1) (bits % 65536) (by omega)]
      · intro h
        exact absurd h (by decide)
      · intro _
        refine ⟨?_, ?_, ?_, rfl, rfl, rfl⟩
        · show (if address = address + 1 then bits % 65536
            else if address = address then (bits >>> 16) % 65536
            else server.InputRegisters address) = (bits >>> 16) % 65536
          rw [if_neg (by omega), if_pos rfl]
        · show (if address + 1 = address + 1 then bits % 65536
            else if address + 1 = address then (bits >>> 16) % 65536
            else server.InputRegisters (address + 1)) = bits % 65536
          rw [if_pos rfl]
        · intro x hx1 hx2
          show (if x = address + 1 then bits % 65536
            else if x = address then (bits >>> 16) % 65536
            else server.InputRegisters x) = server.InputRegisters x
          rw [if_neg hx2, if_neg hx1]

end Mgr

namespace Mgr

/-- C5: for a configured point whose column is present in the CSV row, the
driver computes raw*scale+offset (scale 0 coerced to 1) and writes it:
uint16 (also the default for an empty data type) rounds and rejects values
outside 0..65535; int16 rounds, rejects outside -32768..32767, and stores
the two's-complement word; float32 rejects overflow and stores the high
word at address and the low word at address+1; coil/discrete store the
boolean value > 0. A rejected value leaves the register space unchanged. -/
theorem csv_point_transform (server : Modbus.Server) (row : List (String × ℚ)) (p : Point)
    (raw : ℚ) (hlook : rowLookup row (trimChars p.name.data) = some raw)
    (ha : p.address < 65536) :
    ((lowerChars p.registerType = "holding".data ∨ lowerChars p.registerType = "input".data) →
      ((lowerChars p.dataType = "uint16".data ∨ lowerChars p.dataType = []) →
        ((roundGo (scaledValue p raw) < 0 ∨ roundGo (scaledValue p raw) > 65535) →
          applyPointToServer server row p = server)
        ∧ (0 ≤ roundGo (scaledValue p raw) → roundGo (scaledValue p raw) ≤ 65535 →
          wordWritten server (applyPointToServer server row p) (lowerChars p.registerType)
            p.address (roundGo (scaledValue p raw)).toNat))
      ∧ (lowerChars p.dataType = "int16".data →
        ((roundGo (scaledValue p raw) < -32768 ∨ roundGo (scaledValue p raw) > 32767) →
          applyPointToServer server row p = server)
        ∧ (-32768 ≤ roundGo (scaledValue p raw) → roundGo (scaledValue p raw) ≤ 32767 →
          wordWritten server (applyPointToServer server row p) (lowerChars p.registerType)
            p.address ((roundGo (scaledValue p raw) % 65536).toNat)))
      ∧ (lowerChars p.dataType = "float32".data → p.address < 65535 →
        (toFloat32bits (scaledValue p raw) = none → applyPointToServer server row p = server)
        ∧ (∀ bits, toFloat32bits (scaledValue p raw) = some bits →
          float32Written server (applyPointToServer server row p)
            (lowerChars p.registerType) p.address bits)))
    ∧ (lowerChars p.registerType = "coil".data →
        (applyPointToServer server row p).Coils p.address = decide (scaledValue p raw > 0)
        ∧ (∀ x, x ≠ p.address → (applyPointToServer server row p).Coils x = server.Coils x)
        ∧ (applyPointToServer server row p).HoldingRegisters = server.HoldingRegisters
        ∧ (applyPointToServer server row p).InputRegisters = server.InputRegisters
        ∧ (applyPointToServer server row p).DiscreteInputs = server.DiscreteInputs)
    ∧ (lowerChars p.registerType = "discrete".data →
        (applyPointToServer server row p).DiscreteInputs p.address
            = decide (scaledValue p raw > 0)
        ∧ (∀ x, x ≠ p.address →
            (applyPointToServer server row p).DiscreteInputs x = server.DiscreteInputs x)
        ∧ (applyPointToServer server row p).HoldingRegisters = server.HoldingRegisters
        ∧ (applyPointToServer server row p).InputRegisters = server.InputRegisters
        ∧ (applyPointToServer server row p).Coils = server.Coils) := by
  have hap := applyPoint_found server row p raw hlook
  refine ⟨?_, ?_, ?_⟩
  · intro hrt
    have hbody : applyPointToServer server row p =
        (match writeNumericRegister server (lowerChars p.registerType) p.address
          (if lowerChars p.dataType = [] then "uint16".data else lowerChars p.dataType)
          (scaledValue p raw) with
        | none => server
        | some s2 => s2) := by
      rw [hap, applyPointValue, if_pos hrt]
    refine ⟨?_, ?_, ?_⟩
    · intro hdt
      have hdt2 : (if lowerChars p.dataType = [] then "uint16".data
          else lowerChars p.dataType) = "uint16".data := by
        rcases hdt with h | h
        · rw [if_neg (by rw [h]; decide)]
          exact h
        · rw [if_pos h]
      rw [hdt2] at hbody
      constructor
      · intro hbad
        rw [hbody, writeNumericRegister, if_pos rfl, floatToUint16, if_pos hbad]
      · intro hlo hhi
        obtain ⟨s2, hw, hww⟩ := setRegisterWord_written server (lowerChars p.registerType)
          p.address (roundGo (scaledValue p raw)).toNat ha hrt
        have hres : applyPointToServer server row p = s2 := by
          rw [hbody, writeNumericRegister, if_pos rfl, floatToUint16,
            if_neg (by omega)]
          show (match setRegisterWord server (lowerChars p.registerType) p.address
              (roundGo (scaledValue p raw)).toNat with
            | none => server
            | some s3 => s3) = s2
          rw [hw]
        rw [hres]
        exact hww
    · intro hdt
      have hne1 : lowerChars p.dataType ≠ "uint16".data := by rw [hdt]; decide
      have hne2 : lowerChars p.dataType ≠ [] := by rw [hdt]; decide
      rw [if_neg hne2] at hbody
      constructor
      · intro hbad
        rw [hbody, writeNumericRegister, if_neg hne1, if_pos hdt, floatToInt16, if_pos hbad]
      · intro hlo hhi
        obtain ⟨s2, hw, hww⟩ := setRegisterWord_written server (lowerChars p.registerType)
          p.address ((roundGo (scaledValue p raw) % 65536).toNat) ha hrt
        have hres : applyPointToServer server row p = s2 := by
          rw [hbody, writeNumericRegister, if_neg hne1, if_pos hdt, floatToInt16,
            if_neg (by omega)]
          show (match setRegisterWord server (lowerChars p.registerType) p.address
              ((roundGo (scaledValue p raw) % 65536).toNat) with
            | none => server
            | some s3 => s3) = s2
          rw [hw]
        rw [hres]
        exact hww
    · intro hdt ha5
      have hne1 : lowerChars p.dataType ≠ "uint16".data := by rw [hdt]; decide
      have hne2 : lowerChars p.dataType ≠ [] := by rw [hdt]; decide
      have hne3 : lowerChars p.dataType ≠ "int16".data := by rw [hdt]; decide
      rw [if_neg hne2] at hbody
      obtain ⟨hnone, hsome⟩ := setRegisterFloat32_spec server (lowerChars p.registerType)
        p.address (scaledValue p raw) ha5 hrt
      constructor
      · intro hn
        rw [hbody, writeNumericRegister, if_neg hne1, if_neg hne3, if_pos hdt, hnone hn]
      · intro bits hb
        obtain ⟨s2, hw, hfw⟩ := hsome bits hb
        have hres : applyPointToServer server row p = s2 := by
          rw [hbody, writeNumericRegister, if_neg hne1, if_neg hne3, if_pos hdt, hw]
        rw [hres]
        exact hfw
  · intro hrt
    have hnor : ¬(lowerChars p.registerType = "holding".data
        ∨ lowerChars p.registerType = "input".data) := by
      rw [hrt]; decide
    have hbody : applyPointToServer server row p =
        { server with Coils := fun x =>
            if x = p.address then decide (scaledValue p raw > 0) else server.Coils x } := by
      rw [hap, applyPointValue, if_neg hnor, if_pos hrt, Modbus.SetCoil,
        if_neg (show ¬ p.address ≥ Modbus.regSize by simp only [Modbus.regSize]; omega)]
      rfl
    rw [hbody]
    exact ⟨if_pos rfl, fun x hx => if_neg hx, rfl, rfl, rfl⟩
  · intro hrt
    have hnor : ¬(lowerChars p.registerType = "holding".data
        ∨ lowerChars p.registerType = "input".data) := by
      rw [hrt]; decide
    have hnc : lowerChars p.registerType ≠ "coil".data := by rw [hrt]; decide
    have hbody : applyPointToServer server row p =
        { server with DiscreteInputs := fun x =>
            if x = p.address then decide (scaledValue p raw > 0)
            else server.DiscreteInputs x } := by
      rw [hap, applyPointValue, if_neg hnor, if_neg hnc, if_pos hrt, Modbus.SetDiscreteInput,
        if_neg (show ¬ p.address ≥ Modbus.regSize by simp only [Modbus.regSize]; omega)]
      rfl
    rw [hbody]
    exact ⟨if_pos rfl, fun x hx => if_neg hx, rfl, rfl, rfl⟩

end Mgr

namespace Mgr

/-- Witness for the C5 theorem: the point named x, holding/uint16 at
address 10 with scale 1 and offset 0, driven by a row where x is 7, writes
the word 7 to holding register 10. -/
theorem csv_point_transform_witness :
    rowLookup [("x", (7:ℚ))] (trimChars "x".data) = some 7
    ∧ (10:Nat) < 65536
    ∧ (lowerChars "holding" = "holding".data ∨ lowerChars "holding" = "input".data)
    ∧ (lowerChars "uint16" = "uint16".data ∨ lowerChars "uint16" = [])
    ∧ (0:Int) ≤ roundGo (scaledValue ⟨"x", 10, "holding", "uint16", 1, 0⟩ 7)
    ∧ roundGo (scaledValue ⟨"x", 10, "holding", "uint16", 1, 0⟩ 7) ≤ 65535
    ∧ wordWritten Modbus.zeroServer
        (applyPointToServer Modbus.zeroServer [("x", (7:ℚ))]
          ⟨"x", 10, "holding", "uint16", 1, 0⟩)
        (lowerChars "holding") 10
        (roundGo (scaledValue ⟨"x", 10, "holding", "uint16", 1, 0⟩ 7)).toNat :=
  ⟨by decide, by decide, Or.inl (by decide), Or.inl (by decide),
   by norm_num [roundGo, scaledValue], by norm_num [roundGo, scaledValue],
   (((csv_point_transform Modbus.zeroServer [("x", (7:ℚ))]
        ⟨"x", 10, "holding", "uint16", 1, 0⟩ 7 (by decide) (by decide)).1
      (Or.inl (by decide))).1 (Or.inl (by decide))).2
     (by norm_num [roundGo, scaledValue]) (by norm_num [roundGo, scaledValue])⟩

end Mgr

namespace DB

/-- A point_values row (the columns LatestPointsORM touches). -/
structure PVRow where
  device_id : String
  name : String
  timestamp : Int
  value : ℚ
deriving DecidableEq, Repr

/-- A devices row (the columns the join touches); device_id is the primary
key, server_id the foreign key to servers. -/
structure DevRow where
  device_id : String
  server_id : String
deriving DecidableEq, Repr

/-- A row of the LatestPointsORM result set (the selected columns that the
claim is about). -/
structure PointLatest where
  server_id : String
  device_id : String
  name : String
  value : ℚ
  timestamp : Int
deriving DecidableEq, Repr

/-- SQL inner join point_values JOIN devices ON d.device_id = p.device_id. -/
def joinRows (pvs : List PVRow) (devs : List DevRow) : List (DevRow × PVRow) :=
  pvs.flatMap (fun p => (devs.filter (fun d => d.device_id == p.device_id)).map (fun d => (d, p)))

/-- The optional serverID/deviceID filters: each WHERE clause is added only
when the argument is non-empty. -/
def passes (sID dID : String) (dp : DevRow × PVRow) : Bool :=
  (sID == "" || dp.1.server_id == sID) && (dID == "" || dp.2.device_id == dID)

/-- The grouping key (d.server_id, p.device_id, p.name). -/
def tripleOf (dp : DevRow × PVRow) : String × String × String :=
  (dp.1.server_id, dp.2.device_id, dp.2.name)

/-- The joined, filtered row set the subquery aggregates over. -/
def filteredJoin (pvs : List PVRow) (devs : List DevRow) (sID dID : String) :
    List (DevRow × PVRow) :=
  (joinRows pvs devs).filter (passes sID dID)

/-- SQL MAX over a list of timestamps. -/
def maxTsOf : List Int → Option Int
  | [] => none
  | x :: xs =>
    match maxTsOf xs with
    | none => some x
    | some m => some (max x m)

/-- The timestamps of one group of the subquery. -/
def groupTs (pvs : List PVRow) (devs : List DevRow) (sID dID : String)
    (t : String × String × String) : List Int :=
  ((filteredJoin pvs devs sID dID).filter (fun dp => tripleOf dp == t)).map
    (fun dp => dp.2.timestamp)

/-- The distinct grouping keys of the subquery (GROUP BY). -/
def subTriples (pvs : List PVRow) (devs : List DevRow) (sID dID : String) :
    List (String × String × String) :=
  ((filteredJoin pvs devs sID dID).map tripleOf).dedup

/-- The subquery result: one (triple, MAX(timestamp)) per group. -/
def subRows (pvs : List PVRow) (devs : List DevRow) (sID dID : String) :
    List ((String × String × String) × Int) :=
  (subTriples pvs devs sID dID).filterMap
    (fun t => (maxTsOf (groupTs pvs devs sID dID t)).map (fun m => (t, m)))

/-- The grouping key of a result row. -/
def tripleOfPL (r : PointLatest) : String × String × String :=
  (r.server_id, r.device_id, r.name)

/-- LatestPointsORM from the db source: join point_values with devices and
with the grouped subquery on matching triple and timestamp, select the
output columns, and order by name. -/
def latestPoints (pvs : List PVRow) (devs : List DevRow) (sID dID : String) :
    List PointLatest :=
  List.insertionSort (fun a b : PointLatest => a.name ≤ b.name)
    (((joinRows pvs devs).filter (fun dp =>
        (subRows pvs devs sID dID).any
          (fun l => l.1 == tripleOf dp && l.2 == dp.2.timestamp))).map
      (fun dp => ⟨dp.1.server_id, dp.2.device_id, dp.2.name, dp.2.value, dp.2.timestamp⟩))

end DB

namespace DB

lemma maxTsOf_none {l : List Int} : maxTsOf l = none ↔ l = [] := by
  cases l with
  | nil => simp [maxTsOf]
  | cons x xs =>
    simp only [maxTsOf]
    cases maxTsOf xs <;> simp

lemma maxTsOf_mem : ∀ {l : List Int} {m : Int}, maxTsOf l = some m → m ∈ l := by
  intro l
  induction l with
  | nil => intro m h; simp [maxTsOf] at h
  | cons x xs ih =>
    intro m h
    simp only [maxTsOf] at h
    cases hm : maxTsOf xs with
    | none =>
      rw [hm] at h
      injection h with h
      subst h
      exact List.mem_cons_self x xs
    | some m2 =>
      rw [hm] at h
      injection h with h
      subst h
      rcases max_choice x m2 with hc | hc <;> rw [hc]
      · exact List.mem_cons_self x xs
      · exact List.mem_cons_of_mem x (ih hm)

lemma maxTsOf_le : ∀ {l : List Int} {m : Int}, maxTsOf l = some m → ∀ x ∈ l, x ≤ m := by
  intro l
  induction l with
  | nil => intro m h; simp [maxTsOf] at h
  | cons y ys ih =>
    intro m h x hx
    simp only [maxTsOf] at h
    cases hm : maxTsOf ys with
    | none =>
      rw [hm] at h
      injection h with h
      subst h
      rcases List.mem_cons.mp hx with hh | hh
      · omega
      · rw [maxTsOf_none.mp hm] at hh
        simp at hh
    | some m2 =>
      rw [hm] at h
      injection h with h
      subst h
      rcases List.mem_cons.mp hx with hh | hh
      · subst hh
        exact le_max_left x m2
      · exact le_trans (ih hm x hh) (le_max_right y m2)

lemma mem_subRows {pvs : List PVRow} {devs : List DevRow} {sID dID : String}
    {t : String × String × String} {m : Int} :
    (t, m) ∈ subRows pvs devs sID dID ↔
      t ∈ subTriples pvs devs sID dID
      ∧ maxTsOf (groupTs pvs devs sID dID t) = some m := by
  rw [subRows, List.mem_filterMap]
  constructor
  · rintro ⟨a, ha, hfa⟩
    rcases Option.map_eq_some'.mp hfa with ⟨m2, hm2, heq⟩
    injection heq with h1 h2
    subst h1
    subst h2
    exact ⟨ha, hm2⟩
  · rintro ⟨ht, hm⟩
    exact ⟨t, ht, by rw [hm]; rfl⟩

lemma passes_of_triple_eq {sID dID : String} {dp dq : DevRow × PVRow}
    (h : tripleOf dp = tripleOf dq) : passes sID dID dp = passes sID dID dq := by
  rw [tripleOf, tripleOf, Prod.ext_iff, Prod.ext_iff] at h
  obtain ⟨h1, h2, _⟩ := h
  simp only at h1 h2
  rw [passes, passes, h1, h2]

lemma inSub_iff (pvs : List PVRow) (devs : List DevRow) (sID dID : String)
    (dp : DevRow × PVRow) :
    ((subRows pvs devs sID dID).any
        (fun l => l.1 == tripleOf dp && l.2 == dp.2.timestamp) = true)
      ↔ (tripleOf dp, dp.2.timestamp) ∈ subRows pvs devs sID dID := by
  rw [List.any_eq_true]
  constructor
  · rintro ⟨l, hl, hcond⟩
    rw [Bool.and_eq_true, beq_iff_eq, beq_iff_eq] at hcond
    obtain ⟨h1, h2⟩ := hcond
    have : l = (tripleOf dp, dp.2.timestamp) := by
      cases l
      simp only [Prod.mk.injEq]
      exact ⟨h1, h2⟩
    rw [this] at hl
    exact hl
  · intro h
    exact ⟨_, h, by simp⟩

end DB

namespace DB

lemma latestPoints_countP (pvs : List PVRow) (devs : List DevRow) (sID dID : String)
    (p : PointLatest → Bool) :
    (latestPoints pvs devs sID dID).countP p =
      (joinRows pvs devs).countP (fun dp =>
        p ⟨dp.1.server_id, dp.2.device_id, dp.2.name, dp.2.value, dp.2.timestamp⟩
        && (subRows pvs devs sID dID).any
            (fun l => l.1 == tripleOf dp && l.2 == dp.2.timestamp)) := by
  rw [latestPoints, (List.perm_insertionSort _ _).countP_eq, List.countP_map,
    List.countP_filter]
  rfl

/-- C7 counterexample: two point_values rows for the same
(server_id, device_id, name) triple with the same (maximal) timestamp are
both returned, so the result has two rows for one triple. -/
theorem latest_points_tie_counterexample :
    ((latestPoints [⟨"d1", "p", 5, 1⟩, ⟨"d1", "p", 5, 2⟩] [⟨"d1", "s1"⟩] "" "").filter
      (fun r => tripleOfPL r == ("s1", "d1", "p"))).length = 2 := by
  rw [← List.countP_eq_length_filter, latestPoints_countP]
  decide

end DB

namespace DB

/-- C7 amended: when, for every group of the subquery, the maximal
timestamp is attained by exactly one joined filtered row (no timestamp tie
at the maximum), LatestPointsORM returns exactly one row per
(server_id, device_id, name) triple passing the optional filters and none
for any other triple; every returned row carries the maximal timestamp of
its triple; and the result is ordered by name ascending. On a timestamp
tie all rows attaining the maximum are returned (see the counterexample). -/
theorem latest_points_rows (pvs : List PVRow) (devs : List DevRow) (sID dID : String)
    (hu : ∀ tm ∈ subRows pvs devs sID dID,
      ((filteredJoin pvs devs sID dID).countP
        (fun dp => tripleOf dp == tm.1 && dp.2.timestamp == tm.2)) ≤ 1) :
    (∀ t ∈ subTriples pvs devs sID dID,
      ((latestPoints pvs devs sID dID).filter (fun r => tripleOfPL r == t)).length = 1)
    ∧ (∀ t, t ∉ subTriples pvs devs sID dID →
      ((latestPoints pvs devs sID dID).filter (fun r => tripleOfPL r == t)).length = 0)
    ∧ (∀ r ∈ latestPoints pvs devs sID dID, ∀ dp ∈ filteredJoin pvs devs sID dID,
        tripleOf dp = tripleOfPL r → dp.2.timestamp ≤ r.timestamp)
    ∧ List.Pairwise (fun a b : PointLatest => a.name ≤ b.name)
        (latestPoints pvs devs sID dID) := by
  have hcount : ∀ t : String × String × String,
      ((latestPoints pvs devs sID dID).filter (fun r => tripleOfPL r == t)).length
        = (joinRows pvs devs).countP (fun dp => (tripleOf dp == t)
            && (subRows pvs devs sID dID).any
                (fun l => l.1 == tripleOf dp && l.2 == dp.2.timestamp)) := by
    intro t
    rw [← List.countP_eq_length_filter, latestPoints_countP]
    apply List.countP_congr
    intro dp _
    simp [tripleOfPL, tripleOf]
  refine ⟨?_, ?_, ?_, ?_⟩
  · intro t ht
    obtain ⟨dp0, hdp0f, hdp0t⟩ : ∃ dp0 ∈ filteredJoin pvs devs sID dID, tripleOf dp0 = t := by
      rcases List.mem_map.mp (List.mem_dedup.mp ht) with ⟨dp0, h1, h2⟩
      exact ⟨dp0, h1, h2⟩
    have hpassT : ∀ dp : DevRow × PVRow, tripleOf dp = t → passes sID dID dp = true := by
      intro dp hdp
      rw [@passes_of_triple_eq sID dID dp dp0 (hdp.trans hdp0t.symm)]
      exact (List.mem_filter.mp hdp0f).2
    have hgrp : dp0.2.timestamp ∈ groupTs pvs devs sID dID t := by
      rw [groupTs]
      exact List.mem_map.mpr ⟨dp0,
        List.mem_filter.mpr ⟨hdp0f, by rw [beq_iff_eq]; exact hdp0t⟩, rfl⟩
    obtain ⟨m, hm⟩ : ∃ m, maxTsOf (groupTs pvs devs sID dID t) = some m := by
      cases hmt : maxTsOf (groupTs pvs devs sID dID t) with
      | none =>
        rw [maxTsOf_none.mp hmt] at hgrp
        simp at hgrp
      | some m => exact ⟨m, rfl⟩
    have hsub : (t, m) ∈ subRows pvs devs sID dID := mem_subRows.mpr ⟨ht, hm⟩
    have hpoint : ∀ dp ∈ joinRows pvs devs,
        (((tripleOf dp == t) && (subRows pvs devs sID dID).any
            (fun l => l.1 == tripleOf dp && l.2 == dp.2.timestamp)) = true)
        ↔ (((tripleOf dp == t && dp.2.timestamp == m) && passes sID dID dp) = true) := by
      intro dp _
      rw [Bool.and_eq_true, Bool.and_eq_true, Bool.and_eq_true, beq_iff_eq, beq_iff_eq]
      constructor
      · rintro ⟨h1, h2⟩
        rw [inSub_iff, h1] at h2
        obtain ⟨_, hmax⟩ := mem_subRows.mp h2
        have h3 := hm.symm.trans hmax
        injection h3 with h3
        exact ⟨⟨h1, h3.symm⟩, hpassT dp h1⟩
      · rintro ⟨⟨h1, h2⟩, hp⟩
        refine ⟨h1, ?_⟩
        rw [inSub_iff, h1, h2]
        exact hsub
    rw [hcount t, List.countP_congr hpoint, ← List.countP_filter]
    show List.countP (fun dp => tripleOf dp == t && dp.2.timestamp == m)
      (filteredJoin pvs devs sID dID) = 1
    have hge : 0 < (filteredJoin pvs devs sID dID).countP
        (fun dp => tripleOf dp == t && dp.2.timestamp == m) := by
      rw [List.countP_pos_iff]
      have hmem := maxTsOf_mem hm
      rw [groupTs] at hmem
      rcases List.mem_map.mp hmem with ⟨dq, hdq, hts⟩
      rcases List.mem_filter.mp hdq with ⟨hdqf, hdqt⟩
      refine ⟨dq, hdqf, ?_⟩
      rw [Bool.and_eq_true, beq_iff_eq, beq_iff_eq]
      exact ⟨beq_iff_eq.mp hdqt, hts⟩
    have hle := hu (t, m) hsub
    simp only at hle
    omega
  · intro t ht
    rw [hcount t, List.countP_eq_zero]
    intro dp _ hcon
    rw [Bool.and_eq_true, beq_iff_eq] at hcon
    obtain ⟨h1, h2⟩ := hcon
    rw [inSub_iff] at h2
    obtain ⟨hmem, _⟩ := mem_subRows.mp h2
    rw [h1] at hmem
    exact ht hmem
  · intro r hr dp hdpf htr
    have hr2 := ((List.perm_insertionSort
      (fun a b : PointLatest => a.name ≤ b.name) _).mem_iff).mp hr
    rcases List.mem_map.mp hr2 with ⟨dp0, hdp0, hdp0r⟩
    rcases List.mem_filter.mp hdp0 with ⟨hdp0j, hdp0in⟩
    rw [inSub_iff] at hdp0in
    obtain ⟨_, hmax0⟩ := mem_subRows.mp hdp0in
    subst hdp0r
    have hmem : dp.2.timestamp ∈ groupTs pvs devs sID dID (tripleOf dp0) := by
      rw [groupTs]
      refine List.mem_map.mpr ⟨dp, List.mem_filter.mpr ⟨hdpf, ?_⟩, rfl⟩
      rw [beq_iff_eq]
      exact htr
    exact maxTsOf_le hmax0 _ hmem
  · haveI h1 : IsTotal PointLatest (fun a b => a.name ≤ b.name) :=
      ⟨fun a b => le_total a.name b.name⟩
    haveI h2 : IsTrans PointLatest (fun a b => a.name ≤ b.name) :=
      ⟨fun a b c hab hbc => le_trans hab hbc⟩
    exact List.sorted_insertionSort _ _

/-- Witness for the amended C7 theorem on a concrete tie-free history:
two names for one device, with distinct timestamps per name. -/
theorem latest_points_rows_witness :
    (∀ tm ∈ subRows [⟨"d1", "a", 5, 1⟩, ⟨"d1", "a", 3, 2⟩, ⟨"d1", "b", 4, 7⟩]
        [⟨"d1", "s1"⟩] "" "",
      ((filteredJoin [⟨"d1", "a", 5, 1⟩, ⟨"d1", "a", 3, 2⟩, ⟨"d1", "b", 4, 7⟩]
          [⟨"d1", "s1"⟩] "" "").countP
        (fun dp => tripleOf dp == tm.1 && dp.2.timestamp == tm.2)) ≤ 1)
    ∧ ((∀ t ∈ subTriples [⟨"d1", "a", 5, 1⟩, ⟨"d1", "a", 3, 2⟩, ⟨"d1", "b", 4, 7⟩]
          [⟨"d1", "s1"⟩] "" "",
        ((latestPoints [⟨"d1", "a", 5, 1⟩, ⟨"d1", "a", 3, 2⟩, ⟨"d1", "b", 4, 7⟩]
            [⟨"d1", "s1"⟩] "" "").filter (fun r => tripleOfPL r == t)).length = 1)
      ∧ (∀ t, t ∉ subTriples [⟨"d1", "a", 5, 1⟩, ⟨"d1", "a", 3, 2⟩, ⟨"d1", "b", 4, 7⟩]
          [⟨"d1", "s1"⟩] "" "" →
        ((latestPoints [⟨"d1", "a", 5, 1⟩, ⟨"d1", "a", 3, 2⟩, ⟨"d1", "b", 4, 7⟩]
            [⟨"d1", "s1"⟩] "" "").filter (fun r => tripleOfPL r == t)).length = 0)
      ∧ (∀ r ∈ latestPoints [⟨"d1", "a", 5, 1⟩, ⟨"d1", "a", 3, 2⟩, ⟨"d1", "b", 4, 7⟩]
            [⟨"d1", "s1"⟩] "" "",
          ∀ dp ∈ filteredJoin [⟨"d1", "a", 5, 1⟩, ⟨"d1", "a", 3, 2⟩, ⟨"d1", "b", 4, 7⟩]
            [⟨"d1", "s1"⟩] "" "",
          tripleOf dp = tripleOfPL r → dp.2.timestamp ≤ r.timestamp)
      ∧ List.Pairwise (fun a b : PointLatest => a.name ≤ b.name)
          (latestPoints [⟨"d1", "a", 5, 1⟩, ⟨"d1", "a", 3, 2⟩, ⟨"d1", "b", 4, 7⟩]
            [⟨"d1", "s1"⟩] "" "")) :=
  ⟨by decide,
   latest_points_rows [⟨"d1", "a", 5, 1⟩, ⟨"d1", "a", 3, 2⟩, ⟨"d1", "b", 4, 7⟩]
     [⟨"d1", "s1"⟩] "" "" (by decide)⟩

end DB
